import Mathlib

/-!
# Connect Four (`connect4.js`): board model, drop handling and win detection

A shallow embedding of the `Game` class of `connect4.js`.

* The two `Player` objects are compared by identity only (`===`), so a player
  is one of two tokens.
* A board cell holds `null` or a `Player` object; reading a JavaScript array
  outside its elements yields `undefined`, which is a third value.
* A row is a JavaScript array: its elements at indices `0 .. length-1`, and
  the properties stored under negative keys (`row[-1] = v` stores a property,
  it does not touch the elements).  A hole left by writing beyond the end of
  the array reads as `undefined` and is kept as that value; `every` skips a
  hole and `undefined !== null` is true, so both agree for this program.
* `HEIGHT` and `WIDTH` are set to 6 and 7 in the constructor and never
  assigned again.
* The column index of a click is `+evt.target.id`; it is an integer here.
* The DOM is not modelled, apart from two effects of it on the control flow:
  the table built by `makeHtmlBoard` has a cell `y-x` exactly for
  `0 ≤ y < HEIGHT`, `0 ≤ x < WIDTH`, so `placeInTable` throws a `TypeError`
  (`null.append`) for any other pair; and the messages passed to `endGame`
  are recorded in the order in which they are scheduled.
-/

namespace Connect4

/-! ## Data model -/

/-- The two player objects `this.player1` and `this.player2`. -/
inductive Player
  | player1
  | player2
  deriving DecidableEq, Repr

/-- What an access `board[y][x]` can evaluate to. -/
inductive Value
  | undefined
  | null
  | piece (p : Player)
  deriving DecidableEq, Repr

/-- JavaScript truthiness of a cell value (the operand of `!` in `findSpotForCol`). -/
def Value.truthy : Value → Bool
  | .piece _ => true
  | _ => false

/-- One row of the board, a JavaScript array. -/
structure Row where
  /-- The array elements, indices `0 .. length-1`. -/
  elems : List Value
  /-- Properties stored under negative integer keys. -/
  props : List (Int × Value)
  deriving DecidableEq, Repr

/-- The board: array of rows, `board[y][x]`. -/
abbrev Board := List Row

/-- The mutable fields of a `Game` instance. -/
structure Game where
  board : Board
  currPlayer : Player
  gameOver : Bool
  /-- Messages handed to `endGame`, oldest first. -/
  alerts : List String
  deriving DecidableEq, Repr

/-- The constant `this.HEIGHT`. -/
def HEIGHT : Nat := 6

/-- The constant `this.WIDTH`. -/
def WIDTH : Nat := 7

/-- Property read `row[x]`. -/
def Row.get (r : Row) (x : Int) : Value :=
  if 0 ≤ x then (r.elems[x.toNat]?).getD .undefined
  else (r.props.lookup x).getD .undefined

/-- Property write `row[x] = v`. -/
def Row.put (r : Row) (x : Int) (v : Value) : Row :=
  if 0 ≤ x then
    if x.toNat < r.elems.length then
      { r with elems := r.elems.set x.toNat v }
    else
      { r with
        elems := r.elems ++ List.replicate (x.toNat - r.elems.length) .undefined ++ [v] }
  else
    { r with props := (x, v) :: r.props.filter (fun kv => kv.1 != x) }

/-- The read `this.board[y][x]`.  The board always has its `HEIGHT` rows and
the code only reads rows `0 .. HEIGHT-1`; a missing row reads as `undefined`. -/
def cellAt (b : Board) (y x : Int) : Value :=
  if 0 ≤ y then
    match b[y.toNat]? with
    | some r => r.get x
    | none => .undefined
  else .undefined

/-- The write `this.board[y][x] = v`, for a row index `y` produced by
`findSpotForCol`. -/
def setCell (b : Board) (y : Nat) (x : Int) (v : Value) : Board :=
  match b[y]? with
  | some r => b.set y (r.put x v)
  | none => b

/-- The function `makeBoard`: `HEIGHT` rows of `WIDTH` cells, all `null`. -/
def makeBoard : Board :=
  List.replicate HEIGHT { elems := List.replicate WIDTH .null, props := [] }

/-- The constructor `new Game(...)`. -/
def newGame : Game :=
  { board := makeBoard, currPlayer := .player1, gameOver := false, alerts := [] }

/-! ## Operations -/

/-- The loop of `findSpotForCol`, with `n = y + 1` for the next row `y` to test:
`for (let y = HEIGHT - 1; y >= 0; y--) if (!board[y][x]) return y;` then `null`. -/
def findSpotLoop (b : Board) (x : Int) : Nat → Option Nat
  | 0 => none
  | y + 1 => if !(cellAt b (y : Int) x).truthy then some y else findSpotLoop b x y

/-- The function `findSpotForCol(x)`; `none` is `null`. -/
def findSpotForCol (g : Game) (x : Int) : Option Nat :=
  findSpotLoop g.board x HEIGHT

/-- Whether `document.getElementById` finds the table cell with id `y-x`:
`makeHtmlBoard` creates one for each `0 ≤ y < HEIGHT`, `0 ≤ x < WIDTH`. -/
def hasTableCell (y : Nat) (x : Int) : Bool :=
  decide (y < HEIGHT) && decide (0 ≤ x) && decide (x < (WIDTH : Int))

/-- The function `endGame(msg)`: sets the flag and schedules the alert. -/
def endGame (g : Game) (msg : String) : Game :=
  { g with gameOver := true, alerts := g.alerts ++ [msg] }

/-- The inner function `_win(cells)` of `checkForWin`. -/
def _win (g : Game) (cells : List (Int × Int)) : Bool :=
  cells.all fun c =>
    decide (0 ≤ c.1) && decide (c.1 < (HEIGHT : Int)) &&
    decide (0 ≤ c.2) && decide (c.2 < (WIDTH : Int)) &&
    (cellAt g.board c.1 c.2 == Value.piece g.currPlayer)

/-- The function `checkForWin()`. -/
def checkForWin (g : Game) : Bool :=
  (List.range HEIGHT).any fun yn =>
    (List.range WIDTH).any fun xn =>
      let y : Int := yn
      let x : Int := xn
      let horiz := [(y, x), (y, x + 1), (y, x + 2), (y, x + 3)]
      let vert := [(y, x), (y + 1, x), (y + 2, x), (y + 3, x)]
      let diagDR := [(y, x), (y + 1, x + 1), (y + 2, x + 2), (y + 3, x + 3)]
      let diagDL := [(y, x), (y + 1, x - 1), (y + 2, x - 2), (y + 3, x - 3)]
      _win g horiz || _win g vert || _win g diagDR || _win g diagDL

/-- The tie test `this.board.every(row => row.every(cell => cell !== null))`. -/
def boardFull (b : Board) : Bool :=
  b.all fun row => row.elems.all fun cell => cell != Value.null

/-- The message of a win: `winner + ". You are won!"`. -/
def winMessage (p : Player) : String :=
  (if p = Player.player1 then "Player 1" else "Player 2") ++ ". You are won!"

/-- The message of a tie. -/
def tieMessage : String := "It is a Tie!"

/-- The player switch `currPlayer === player1 ? player2 : player1`. -/
def otherPlayer (p : Player) : Player :=
  if p = Player.player1 then Player.player2 else Player.player1

/-- How a call of the click handler ends: it returns, or an uncaught
`TypeError` escapes from it; both leave a game state behind. -/
inductive Completion
  | returned (g : Game)
  | threw (g : Game)
  deriving DecidableEq, Repr

/-- The state a call leaves behind. -/
def Completion.state : Completion → Game
  | .returned g => g
  | .threw g => g

/-- The assignment `this.board[y][x] = this.currPlayer` of `handleClick`. -/
def placePiece (g : Game) (y : Nat) (x : Int) : Game :=
  { g with board := setCell g.board y x (Value.piece g.currPlayer) }

/-- The method `handleClick(evt)`, with `x = +evt.target.id`. -/
def handleClick (g : Game) (x : Int) : Completion :=
  if g.gameOver then .returned g
  else
    match findSpotForCol g x with
    | none => .returned g
    | some y =>
      let g1 := placePiece g y x
      if !hasTableCell y x then .threw g1
      else if checkForWin g1 then .returned (endGame g1 (winMessage g1.currPlayer))
      else if boardFull g1.board then .returned (endGame g1 tieMessage)
      else .returned { g1 with currPlayer := otherPlayer g1.currPlayer }

/-- The state after a sequence of clicks, one column index per click. -/
def clicks (g : Game) (xs : List Int) : Game :=
  xs.foldl (fun s x => (handleClick s x).state) g

/-! ## Vocabulary of the statements -/

/-- A `HEIGHT` by `WIDTH` board: every row has `WIDTH` elements, each of them
`null` or a player. -/
def Grid (b : Board) : Prop :=
  b.length = HEIGHT ∧ ∀ r ∈ b, r.elems.length = WIDTH ∧ ∀ v ∈ r.elems, v ≠ Value.undefined

instance (b : Board) : Decidable (Grid b) := by
  unfold Grid; infer_instance

/-- The cell `(y, x)` is occupied: it holds a player object (the only truthy values). -/
def occupied (b : Board) (y x : Int) : Prop :=
  (cellAt b y x).truthy = true

instance (b : Board) (y x : Int) : Decidable (occupied b y x) := by
  unfold occupied; infer_instance

/-- Gravity on the grid: below an occupied cell, every cell of the column is occupied. -/
def Gravity (b : Board) : Prop :=
  ∀ x : Nat, x < WIDTH → ∀ y : Nat, y < HEIGHT → ∀ y' : Nat, y' < HEIGHT →
    occupied b y x → y < y' → occupied b y' x

instance (b : Board) : Decidable (Gravity b) := by
  unfold Gravity; infer_instance

/-- The columns of the grid. -/
def validColumn (x : Int) : Prop := 0 ≤ x ∧ x < (WIDTH : Int)

instance (x : Int) : Decidable (validColumn x) := by
  unfold validColumn; infer_instance

/-- The cell `(y, x)` passes the test of `_win`: in the grid and held by the current player. -/
def cellWins (g : Game) (y x : Int) : Prop :=
  (0 ≤ y ∧ y < HEIGHT) ∧ (0 ≤ x ∧ x < WIDTH) ∧ cellAt g.board y x = Value.piece g.currPlayer

/-- The four ray directions `(dy, dx)`: right, down, down-right, down-left. -/
def directions : List (Int × Int) := [(0, 1), (1, 0), (1, 1), (1, -1)]

/-- The four cells from `(y, x)` in direction `d` lie in the grid and hold `p`. -/
def lineOf (b : Board) (p : Player) (y x : Int) (d : Int × Int) : Prop :=
  ∀ k : Int, 0 ≤ k → k < 4 →
    (0 ≤ y + k * d.1 ∧ y + k * d.1 < HEIGHT) ∧ (0 ≤ x + k * d.2 ∧ x + k * d.2 < WIDTH) ∧
      cellAt b (y + k * d.1) (x + k * d.2) = Value.piece p

/-- A cell written as a digit: `0` is `null`, `1` and `2` are the players. -/
def cellOfCode : Nat → Value
  | 0 => Value.null
  | 1 => Value.piece Player.player1
  | _ => Value.piece Player.player2

/-- A board written as rows of digits. -/
def boardOfCodes (rows : List (List Nat)) : Board :=
  rows.map fun codes => { elems := codes.map cellOfCode, props := [] }

/-- The 41 drops of a game that leave `(0, 5)` as the only empty cell, player 2 to move. -/
def lastCellDrops : List Int :=
  [4, 6, 0, 2, 6, 5, 1, 2, 5, 2, 3, 4, 1, 1, 4, 0, 3, 5, 5, 6, 2, 4, 3, 0, 1, 3, 1, 5, 0, 1, 3,
    0, 2, 6, 2, 4, 3, 0, 4, 6, 6]

/-- The state after `lastCellDrops`, written out. -/
def lastCellState : Game :=
  { board := boardOfCodes
      [[2, 2, 1, 1, 1, 0, 1],
       [2, 1, 1, 1, 2, 2, 2],
       [1, 1, 1, 2, 2, 1, 2],
       [2, 2, 2, 1, 1, 2, 2],
       [2, 1, 2, 1, 2, 1, 1],
       [1, 1, 2, 1, 1, 2, 2]]
    currPlayer := Player.player2
    gameOver := false
    alerts := [] }

/-- The board turned by 180 degrees: rows and each row's elements reversed. -/
def rotate180 (b : Board) : Board :=
  (b.map fun r => { r with elems := r.elems.reverse }).reverse

/-- Eleven drops after which player 1 holds the diagonal `(5,0), (4,1), (3,2), (2,3)`. -/
def diagonalDrops : List Int := [0, 1, 1, 2, 3, 2, 2, 3, 4, 3, 3]

/-- The game `g` with its board turned by 180 degrees. -/
def rotateGame (g : Game) : Game :=
  { g with board := rotate180 g.board }

/-- A run of `k` drops into the column `x`. -/
def columnDrops (x : Int) (k : Nat) : List Int := List.replicate k x

/-- The drops of the vertical-win scenario: player 1 into column 0, player 2 into column 1. -/
def verticalWinDrops : List Int := [0, 1, 0, 1, 0, 1, 0]

/-- The click is accepted: `handleClick` passes both of its early returns, the game is not
over and `findSpotForCol` finds a row. -/
def accepted (g : Game) (x : Int) : Bool :=
  !g.gameOver && (findSpotForCol g x).isSome

/-- Every click of the sequence is accepted, each in the state the earlier ones lead to. -/
def allAccepted (g : Game) : List Int → Bool
  | [] => true
  | x :: xs => accepted g x && allAccepted (handleClick g x).state xs

/-- The number of accepted clicks of the sequence. -/
def acceptedCount (g : Game) : List Int → Nat
  | [] => 0
  | x :: xs => (if accepted g x then 1 else 0) + acceptedCount (handleClick g x).state xs

/-- The number of cells (array elements of the rows) whose value satisfies `f`. -/
def countCells (f : Value → Bool) (b : Board) : Nat :=
  (b.map fun r => r.elems.countP f).sum

/-- The number of pieces of player `p` on the board. -/
def piecesOf (p : Player) (b : Board) : Nat :=
  countCells (fun v => v == Value.piece p) b

/-- The number of occupied cells of the board. -/
def occupiedCells (b : Board) : Nat :=
  countCells Value.truthy b

/-- Player `p` has four in a row somewhere on the board. -/
def hasLine (b : Board) (p : Player) : Prop :=
  ∃ y x : Int, ∃ d ∈ directions, lineOf b p y x d

/-- The player who made the last accepted click of the sequence, if any click was accepted. -/
def lastMover (g : Game) : List Int → Option Player
  | [] => none
  | x :: xs =>
    match lastMover (handleClick g x).state xs with
    | some p => some p
    | none => if accepted g x then some g.currPlayer else none

/-- The click completes four in a row for the player who makes it: a row is found and
`checkForWin` succeeds right after the piece is placed. -/
def completesFour (g : Game) (x : Int) : Bool :=
  match findSpotForCol g x with
  | some y => checkForWin (placePiece g y x)
  | none => false

/-- No click of the sequence completes four in a row for the player who makes it. -/
def noFourCompleted (g : Game) : List Int → Bool
  | [] => true
  | x :: xs => !completesFour g x && noFourCompleted (handleClick g x).state xs

/-- The 42 drops of a game in which nobody ever gets four in a row. -/
def tieDrops : List Int :=
  [5, 4, 5, 0, 6, 2, 4, 5, 5, 0, 4, 1, 1, 0, 4, 5, 6, 5, 3, 1, 1, 2, 2, 6, 2, 6, 6, 3, 6, 2, 0,
    3, 0, 3, 3, 4, 3, 1, 4, 2, 1, 0]

/-- The four cells of the ray from `(y, x)` in direction `d`, as `checkForWin` lists them. -/
def ray (y x : Int) (d : Int × Int) : List (Int × Int) :=
  [(y, x), (y + d.1, x + d.2), (y + 2 * d.1, x + 2 * d.2), (y + 3 * d.1, x + 3 * d.2)]

/-- The cells of the grid in row-major order, the order of the two loops of `checkForWin`. -/
def gridCells : List (Int × Int) :=
  (List.range (HEIGHT * WIDTH)).map fun i => (((i / WIDTH : Nat) : Int), ((i % WIDTH : Nat) : Int))

/-- The scan of `checkForWin` with the start cells and the rays taken in a given order. -/
def scanInOrder (g : Game) (cells dirs : List (Int × Int)) : Bool :=
  cells.any fun c => dirs.any fun d => _win g (ray c.1 c.2 d)

/-- The test of four cells without bounds checks: all hold the current player. -/
def allHeld (g : Game) (cells : List (Int × Int)) : Bool :=
  cells.all fun c => cellAt g.board c.1 c.2 == Value.piece g.currPlayer

/-- The minimal scan, written after its description: a ray is tested only from the start
cells where it fits in the grid (horizontal from `x ≤ WIDTH-4`, vertical from `y ≤ HEIGHT-4`,
down-right from both, down-left from `y ≤ HEIGHT-4` and `x ≥ 3`), with no bounds checks. -/
def checkForWinMinimal (g : Game) : Bool :=
  (List.range HEIGHT).any fun yn =>
    (List.range WIDTH).any fun xn =>
      let y : Int := yn
      let x : Int := xn
      (decide (xn ≤ WIDTH - 4) && allHeld g [(y, x), (y, x + 1), (y, x + 2), (y, x + 3)]) ||
      (decide (yn ≤ HEIGHT - 4) && allHeld g [(y, x), (y + 1, x), (y + 2, x), (y + 3, x)]) ||
      (decide (yn ≤ HEIGHT - 4) && decide (xn ≤ WIDTH - 4) &&
        allHeld g [(y, x), (y + 1, x + 1), (y + 2, x + 2), (y + 3, x + 3)]) ||
      (decide (yn ≤ HEIGHT - 4) && decide (3 ≤ xn) &&
        allHeld g [(y, x), (y + 1, x - 1), (y + 2, x - 2), (y + 3, x - 3)])

/-- A total lookup of `board[y][x]`: `some` for an element of the arrays, `none` for any
index outside them. -/
def lookup? (b : Board) (y x : Int) : Option Value :=
  if 0 ≤ y ∧ 0 ≤ x then
    match b[y.toNat]? with
    | some r => r.elems[x.toNat]?
    | none => none
  else none

/-- The coordinate pair lies in the grid. -/
def inGrid (c : Int × Int) : Prop :=
  (0 ≤ c.1 ∧ c.1 < (HEIGHT : Int)) ∧ (0 ≤ c.2 ∧ c.2 < (WIDTH : Int))

instance (c : Int × Int) : Decidable (inGrid c) := by
  unfold inGrid; infer_instance

/-- The coordinates at which `_win(cells)` indexes the board, in order: `every` stops at the
first cell that fails, and `&&` evaluates `this.board[y][x]` only after the four bounds tests
have passed. -/
def _winReads (g : Game) : List (Int × Int) → List (Int × Int)
  | [] => []
  | c :: cs =>
    if decide (0 ≤ c.1) && decide (c.1 < (HEIGHT : Int)) &&
        decide (0 ≤ c.2) && decide (c.2 < (WIDTH : Int)) then
      if cellAt g.board c.1 c.2 == Value.piece g.currPlayer then c :: _winReads g cs else [c]
    else []

/-- The tests `_win(horiz) || _win(vert) || ...` of one start cell, with the coordinates they
read: `||` stops at the first ray that wins. -/
def tracedRays (g : Game) : List (List (Int × Int)) → Bool × List (Int × Int)
  | [] => (false, [])
  | r :: rs =>
    if _win g r then (true, _winReads g r)
    else ((tracedRays g rs).1, _winReads g r ++ (tracedRays g rs).2)

/-- The loop of `checkForWin` over the start cells, with the coordinates read: it returns at
the first cell from which a ray wins. -/
def tracedCells (g : Game) : List (Int × Int) → Bool × List (Int × Int)
  | [] => (false, [])
  | c :: cs =>
    if (tracedRays g (directions.map (ray c.1 c.2))).1 then
      (true, (tracedRays g (directions.map (ray c.1 c.2))).2)
    else
      ((tracedCells g cs).1,
        (tracedRays g (directions.map (ray c.1 c.2))).2 ++ (tracedCells g cs).2)

/-- The function `checkForWin()` together with the coordinates at which it indexes the
board. -/
def checkForWinTraced (g : Game) : Bool × List (Int × Int) :=
  tracedCells g gridCells

/-- The coordinates at which the loop of `findSpotForCol` indexes the board, with `n = y + 1`
for the next row `y` to test. -/
def findSpotReads (b : Board) (x : Int) : Nat → List (Int × Int)
  | 0 => []
  | y + 1 => ((y : Int), x) :: (if !(cellAt b (y : Int) x).truthy then [] else findSpotReads b x y)

/-! ## Win detection: the scan finds exactly the lines of four -/

theorem win_four (g : Game) (a b c d : Int × Int) :
    _win g [a, b, c, d] = true ↔
      cellWins g a.1 a.2 ∧ cellWins g b.1 b.2 ∧ cellWins g c.1 c.2 ∧ cellWins g d.1 d.2 := by
  simp only [_win, cellWins, List.all_cons, List.all_nil, Bool.and_true, Bool.and_eq_true,
    decide_eq_true_eq, beq_iff_eq]
  tauto

theorem lineOf_iff (b : Board) (p : Player) (y x : Int) (d : Int × Int) :
    lineOf b p y x d ↔
      ∀ k ∈ [0, 1, 2, (3 : Int)],
        (0 ≤ y + k * d.1 ∧ y + k * d.1 < HEIGHT) ∧ (0 ≤ x + k * d.2 ∧ x + k * d.2 < WIDTH) ∧
          cellAt b (y + k * d.1) (x + k * d.2) = Value.piece p := by
  constructor
  · intro h k hk
    simp only [List.mem_cons, List.mem_singleton, List.not_mem_nil, or_false] at hk
    exact h k (by omega) (by omega)
  · intro h k h0 h4
    apply h k
    simp only [List.mem_cons, List.mem_singleton, List.not_mem_nil, or_false]
    omega

theorem checkForWin_iff_line (g : Game) :
    checkForWin g = true ↔
      ∃ y x : Int, ∃ d ∈ directions, lineOf g.board g.currPlayer y x d := by
  simp only [checkForWin, List.any_eq_true, List.mem_range, Bool.or_eq_true, win_four, lineOf_iff]
  constructor
  · rintro ⟨yn, -, xn, -, h⟩
    rcases h with ((h | h) | h) | h
    · refine ⟨yn, xn, (0, 1), by simp [directions], ?_⟩
      simpa [cellWins] using h
    · refine ⟨yn, xn, (1, 0), by simp [directions], ?_⟩
      simpa [cellWins] using h
    · refine ⟨yn, xn, (1, 1), by simp [directions], ?_⟩
      simpa [cellWins] using h
    · refine ⟨yn, xn, (1, -1), by simp [directions], ?_⟩
      simpa [cellWins, sub_eq_add_neg] using h
  · rintro ⟨y, x, d, hd, h⟩
    have h0 := h 0 (by simp)
    simp only [zero_mul, add_zero] at h0
    obtain ⟨⟨hy0, hy1⟩, ⟨hx0, hx1⟩, -⟩ := h0
    refine ⟨y.toNat, by simp only [HEIGHT] at *; omega, x.toNat, by simp only [WIDTH] at *; omega, ?_⟩
    rw [Int.toNat_of_nonneg hy0, Int.toNat_of_nonneg hx0]
    simp only [directions, List.mem_cons, List.mem_singleton, List.not_mem_nil, or_false] at hd
    rcases hd with rfl | rfl | rfl | rfl
    · left; left; left
      simpa [cellWins] using h
    · left; left; right
      simpa [cellWins] using h
    · left; right
      simpa [cellWins] using h
    · right
      simpa [cellWins, sub_eq_add_neg] using h

/-! ## Reading and writing cells -/

theorem lookup_filter_ne (l : List (Int × Value)) (x x' : Int) (h : x' ≠ x) :
    (l.filter (fun kv => kv.1 != x)).lookup x' = l.lookup x' := by
  induction l with
  | nil => rfl
  | cons a l ih =>
    obtain ⟨k, v⟩ := a
    by_cases hk : k = x
    · subst hk
      have : (x' == k) = false := by simpa using h
      simp [List.filter_cons, List.lookup_cons, this, ih]
    · by_cases hk' : x' = k
      · subst hk'
        simp [List.filter_cons, List.lookup_cons, hk]
      · have : (x' == k) = false := by simpa using hk'
        simp [List.filter_cons, List.lookup_cons, hk, this, ih]

theorem Row.get_put (r : Row) (x x' : Int) (v : Value) :
    (r.put x v).get x' = if x' = x then v else r.get x' := by
  unfold Row.put
  by_cases hx : 0 ≤ x
  · rw [if_pos hx]
    by_cases hx' : 0 ≤ x'
    · by_cases hlt : x.toNat < r.elems.length
      · rw [if_pos hlt]
        unfold Row.get
        rw [if_pos hx', if_pos hx', List.getElem?_set]
        by_cases he : x' = x
        · subst he
          rw [if_pos rfl, if_pos hlt, if_pos rfl]
          rfl
        · have hne : ¬ x.toNat = x'.toNat := by omega
          rw [if_neg hne, if_neg he]
      · rw [if_neg hlt]
        unfold Row.get
        rw [if_pos hx', if_pos hx']
        dsimp only
        by_cases he : x' = x
        · subst he
          rw [if_pos rfl, List.getElem?_append_right (by simp; omega)]
          have : x'.toNat - (r.elems ++ List.replicate (x'.toNat - r.elems.length)
              Value.undefined).length = 0 := by simp; omega
          rw [this]
          rfl
        · rw [if_neg he]
          rcases Nat.lt_trichotomy x'.toNat x.toNat with h | h | h
          · by_cases h2 : x'.toNat < r.elems.length
            · rw [List.append_assoc, List.getElem?_append_left h2]
            · have h3 : r.elems[x'.toNat]? = none := List.getElem?_eq_none (by omega)
              rw [List.append_assoc, List.getElem?_append_right (by omega),
                List.getElem?_append_left (by simp; omega), h3,
                List.getElem?_replicate_of_lt (by omega)]
              rfl
          · omega
          · have h3 : r.elems[x'.toNat]? = none := List.getElem?_eq_none (by omega)
            rw [h3, List.getElem?_eq_none (by simp; omega)]
    · have he : x' ≠ x := by omega
      rw [if_neg he]
      unfold Row.get
      rw [if_neg hx', if_neg hx']
      split <;> rfl
  · rw [if_neg hx]
    unfold Row.get
    by_cases hx' : 0 ≤ x'
    · have he : x' ≠ x := by omega
      rw [if_pos hx', if_pos hx', if_neg he]
    · rw [if_neg hx', if_neg hx']
      dsimp only
      by_cases he : x' = x
      · subst he
        simp [List.lookup_cons]
      · have : (x' == x) = false := by simpa using he
        rw [if_neg he, List.lookup_cons, this, lookup_filter_ne _ _ _ he]

theorem cellAt_setCell (b : Board) (y : Nat) (x : Int) (v : Value) (hy : y < b.length)
    (y' x' : Int) :
    cellAt (setCell b y x v) y' x' = if y' = y ∧ x' = x then v else cellAt b y' x' := by
  unfold setCell cellAt
  rw [List.getElem?_eq_getElem hy]
  dsimp only
  by_cases hy' : 0 ≤ y'
  · rw [if_pos hy', if_pos hy', List.getElem?_set]
    by_cases he : y = y'.toNat
    · have hyy : y' = (y : Int) := by omega
      rw [if_pos he, if_pos hy]
      dsimp only
      rw [Row.get_put, ← he, List.getElem?_eq_getElem hy]
      by_cases hxx : x' = x
      · rw [if_pos hxx, if_pos ⟨hyy, hxx⟩]
      · rw [if_neg hxx, if_neg (fun h => hxx h.2)]
    · have hyy : ¬ y' = (y : Int) := by omega
      rw [if_neg he]
      simp [hyy]
  · have hyy : ¬ y' = (y : Int) := by omega
    simp [hy', hyy]

/-! ## Grids and the column scan -/

theorem Grid.row {b : Board} (hg : Grid b) {y : Nat} (hy : y < HEIGHT) :
    ∃ r, b[y]? = some r ∧ r.elems.length = WIDTH ∧ ∀ v ∈ r.elems, v ≠ Value.undefined := by
  obtain ⟨hl, hr⟩ := hg
  have hy' : y < b.length := by omega
  exact ⟨b[y], List.getElem?_eq_getElem hy', hr _ (List.getElem_mem hy')⟩

theorem Grid.cellAt_ne_undefined {b : Board} (hg : Grid b) {y : Nat} (hy : y < HEIGHT)
    {x : Int} (hx0 : 0 ≤ x) (hx : x < WIDTH) : cellAt b y x ≠ Value.undefined := by
  obtain ⟨r, hr, hlen, hv⟩ := hg.row hy
  have hxl : x.toNat < r.elems.length := by omega
  unfold cellAt Row.get
  rw [if_pos (Int.ofNat_nonneg y), Int.toNat_ofNat, hr]
  dsimp only
  rw [if_pos hx0, List.getElem?_eq_getElem hxl]
  exact hv _ (List.getElem_mem hxl)

theorem Grid.truthy_eq_false_iff {b : Board} (hg : Grid b) {y : Nat} (hy : y < HEIGHT)
    {x : Int} (hx0 : 0 ≤ x) (hx : x < WIDTH) :
    (cellAt b y x).truthy = false ↔ cellAt b y x = Value.null := by
  have h := hg.cellAt_ne_undefined hy hx0 hx
  cases hc : cellAt b y x <;> simp_all [Value.truthy]

theorem Grid.setCell {b : Board} (hg : Grid b) (y : Nat) {x : Int} (hx0 : 0 ≤ x)
    (hx : x < WIDTH) {v : Value} (hv : v ≠ Value.undefined) : Grid (setCell b y x v) := by
  unfold Connect4.setCell
  cases hr : b[y]? with
  | none => exact hg
  | some r =>
    dsimp only
    obtain ⟨hl, hrows⟩ := hg
    refine ⟨by rw [List.length_set]; exact hl, ?_⟩
    intro r' hr'
    rcases List.mem_or_eq_of_mem_set hr' with h | h
    · exact hrows r' h
    · subst h
      have hmem : r ∈ b := List.getElem?_mem hr
      obtain ⟨hlen, hvals⟩ := hrows r hmem
      have hxl : x.toNat < r.elems.length := by omega
      unfold Row.put
      rw [if_pos hx0, if_pos hxl]
      dsimp only
      refine ⟨by rw [List.length_set]; exact hlen, ?_⟩
      intro w hw
      rcases List.mem_or_eq_of_mem_set hw with h | h
      · exact hvals w h
      · rw [h]; exact hv

theorem findSpotLoop_eq_some (b : Board) (x : Int) (n y : Nat) :
    findSpotLoop b x n = some y ↔
      y < n ∧ (cellAt b y x).truthy = false ∧
        ∀ y' : Nat, y < y' → y' < n → (cellAt b y' x).truthy = true := by
  induction n with
  | zero => simp [findSpotLoop]
  | succ n ih =>
    unfold findSpotLoop
    by_cases hc : (cellAt b (n : Int) x).truthy = true
    · simp only [hc, Bool.not_true, Bool.false_eq_true, if_false, ih]
      constructor
      · rintro ⟨h1, h2, h3⟩
        refine ⟨by omega, h2, ?_⟩
        intro y' hy1 hy2
        by_cases hyn : y' = n
        · subst hyn; exact hc
        · exact h3 y' hy1 (by omega)
      · rintro ⟨h1, h2, h3⟩
        have hne : y ≠ n := by
          rintro rfl
          rw [hc] at h2
          exact Bool.noConfusion h2
        exact ⟨by omega, h2, fun y' hy1 hy2 => h3 y' hy1 (by omega)⟩
    · have hc' : (cellAt b (n : Int) x).truthy = false := by simpa using hc
      simp only [hc', Bool.not_false, if_true, Option.some.injEq]
      constructor
      · rintro rfl
        exact ⟨by omega, hc', fun y' h1 h2 => by omega⟩
      · rintro ⟨h1, h2, h3⟩
        by_contra hne
        have := h3 n (by omega) (by omega)
        rw [hc'] at this
        exact Bool.noConfusion this

theorem findSpotLoop_eq_none (b : Board) (x : Int) (n : Nat) :
    findSpotLoop b x n = none ↔ ∀ y : Nat, y < n → (cellAt b y x).truthy = true := by
  induction n with
  | zero => simp [findSpotLoop]
  | succ n ih =>
    unfold findSpotLoop
    by_cases hc : (cellAt b (n : Int) x).truthy = true
    · simp only [hc, Bool.not_true, Bool.false_eq_true, if_false, ih]
      constructor
      · intro h y hy
        by_cases hyn : y = n
        · subst hyn; exact hc
        · exact h y (by omega)
      · intro h y hy
        exact h y (by omega)
    · have hc' : (cellAt b (n : Int) x).truthy = false := by simpa using hc
      simp only [hc', Bool.not_false, if_true]
      constructor
      · intro h; cases h
      · intro h
        have := h n (by omega)
        rw [hc'] at this
        exact Bool.noConfusion this

/-! ## The click handler, case by case -/

theorem findSpotForCol_lt {g : Game} {x : Int} {y : Nat} (h : findSpotForCol g x = some y) :
    y < HEIGHT :=
  ((findSpotLoop_eq_some g.board x HEIGHT y).1 h).1

theorem handleClick_over {g : Game} (h : g.gameOver = true) (x : Int) :
    handleClick g x = Completion.returned g := by
  unfold handleClick
  rw [if_pos h]

theorem handleClick_none {g : Game} {x : Int} (h : findSpotForCol g x = none) :
    handleClick g x = Completion.returned g := by
  unfold handleClick
  rw [h]
  split <;> rfl

theorem handleClick_accept {g : Game} {x : Int} {y : Nat} (hgo : g.gameOver = false)
    (hy : findSpotForCol g x = some y) (hx0 : 0 ≤ x) (hx : x < WIDTH) :
    handleClick g x = Completion.returned
      (if checkForWin (placePiece g y x) then
        endGame (placePiece g y x) (winMessage g.currPlayer)
      else if boardFull (placePiece g y x).board then endGame (placePiece g y x) tieMessage
      else { placePiece g y x with currPlayer := otherPlayer g.currPlayer }) := by
  have hcell : hasTableCell y x = true := by
    simp [hasTableCell, findSpotForCol_lt hy, hx0, hx]
  unfold handleClick
  rw [hgo, hy]
  simp only [Bool.false_eq_true, if_false, hcell, Bool.not_true]
  split
  · rfl
  · split <;> rfl

theorem handleClick_outside {g : Game} {x : Int} {y : Nat} (hgo : g.gameOver = false)
    (hy : findSpotForCol g x = some y) (hx : x < 0 ∨ (WIDTH : Int) ≤ x) :
    handleClick g x = Completion.threw (placePiece g y x) := by
  have hcell : hasTableCell y x = false := by
    simp only [hasTableCell, Bool.and_eq_false_iff, decide_eq_false_iff_not]
    omega
  unfold handleClick
  rw [hgo, hy]
  simp [hcell]

/-! ## Win detection (C1) -/

/-- C1: `checkForWin` returns true if and only if there are a start cell `(y, x)` and a
direction `(dy, dx)` among `(0,1)`, `(1,0)`, `(1,1)`, `(1,-1)` such that the four cells
`(y + k*dy, x + k*dx)`, `k = 0, 1, 2, 3`, all lie inside the grid and all hold the current
player.  It holds for every board, the `HEIGHT` by `WIDTH` ones in particular. -/
theorem checkForWin_iff_four_in_line (g : Game) :
    checkForWin g = true ↔
      ∃ y x dy dx : Int, (dy, dx) ∈ [(0, 1), (1, 0), (1, 1), ((1 : Int), (-1 : Int))] ∧
        ∀ k : Int, 0 ≤ k → k < 4 →
          (0 ≤ y + k * dy ∧ y + k * dy < HEIGHT) ∧ (0 ≤ x + k * dx ∧ x + k * dx < WIDTH) ∧
            cellAt g.board (y + k * dy) (x + k * dx) = Value.piece g.currPlayer := by
  rw [checkForWin_iff_line]
  constructor
  · rintro ⟨y, x, ⟨dy, dx⟩, hd, h⟩
    exact ⟨y, x, dy, dx, hd, h⟩
  · rintro ⟨y, x, dy, dx, hd, h⟩
    exact ⟨y, x, (dy, dx), hd, h⟩

/-! ## The landing row (C2) -/

/-- C2: on a `HEIGHT` by `WIDTH` board and for a column `0 ≤ x < WIDTH`, `findSpotForCol x`
returns `y` exactly when `y` is the greatest row index whose cell `(y, x)` is empty, and it
returns `null` exactly when no cell of column `x` is empty. -/
theorem findSpotForCol_greatest_empty_row (g : Game) (x : Int) (hg : Grid g.board)
    (hx0 : 0 ≤ x) (hx : x < WIDTH) :
    (∀ y : Nat, findSpotForCol g x = some y ↔
        y < HEIGHT ∧ cellAt g.board y x = Value.null ∧
          ∀ y' : Nat, y < y' → y' < HEIGHT → cellAt g.board y' x ≠ Value.null) ∧
      (findSpotForCol g x = none ↔
        ∀ y : Nat, y < HEIGHT → cellAt g.board y x ≠ Value.null) := by
  have hne : ∀ y : Nat, y < HEIGHT →
      ((cellAt g.board y x).truthy = true ↔ cellAt g.board y x ≠ Value.null) := by
    intro y hy
    have h := hg.truthy_eq_false_iff hy hx0 hx
    constructor
    · intro ht hn
      rw [h.2 hn] at ht
      exact Bool.noConfusion ht
    · intro hn
      cases ht : (cellAt g.board y x).truthy
      · exact absurd (h.1 ht) hn
      · rfl
  constructor
  · intro y
    unfold findSpotForCol
    rw [findSpotLoop_eq_some]
    constructor
    · rintro ⟨h1, h2, h3⟩
      exact ⟨h1, (hg.truthy_eq_false_iff h1 hx0 hx).1 h2,
        fun y' hy1 hy2 => (hne y' hy2).1 (h3 y' hy1 hy2)⟩
    · rintro ⟨h1, h2, h3⟩
      exact ⟨h1, (hg.truthy_eq_false_iff h1 hx0 hx).2 h2,
        fun y' hy1 hy2 => (hne y' hy2).2 (h3 y' hy1 hy2)⟩
  · unfold findSpotForCol
    rw [findSpotLoop_eq_none]
    constructor
    · intro h y hy
      exact (hne y hy).1 (h y hy)
    · intro h y hy
      exact (hne y hy).2 (h y hy)

/-- Witness of C2: the theorem at the board after the drops 3, 3, 4, column 3. -/
theorem findSpotForCol_greatest_empty_row_witness :
    Grid (clicks newGame [3, 3, 4]).board ∧ findSpotForCol (clicks newGame [3, 3, 4]) 3 = some 3 ∧
      ((∀ y : Nat, findSpotForCol (clicks newGame [3, 3, 4]) 3 = some y ↔
          y < HEIGHT ∧ cellAt (clicks newGame [3, 3, 4]).board y 3 = Value.null ∧
            ∀ y' : Nat, y < y' → y' < HEIGHT →
              cellAt (clicks newGame [3, 3, 4]).board y' 3 ≠ Value.null) ∧
        (findSpotForCol (clicks newGame [3, 3, 4]) 3 = none ↔
          ∀ y : Nat, y < HEIGHT → cellAt (clicks newGame [3, 3, 4]).board y 3 ≠ Value.null)) :=
  ⟨by decide, by decide,
    findSpotForCol_greatest_empty_row (clicks newGame [3, 3, 4]) 3 (by decide) (by decide)
      (by decide)⟩

/-! ## Columns outside the grid (C3) -/

/-- C3, as stated, fails: in a new game a click with column index `-1`, and one with column
index `WIDTH`, each change the board (the piece is stored outside the grid, in the bottom
row). -/
theorem drop_outside_grid_changes_board :
    (handleClick newGame (-1)).state.board ≠ newGame.board ∧
      (handleClick newGame (WIDTH : Int)).state.board ≠ newGame.board ∧
      cellAt (handleClick newGame (-1)).state.board 5 (-1) = Value.piece Player.player1 ∧
      cellAt (handleClick newGame (WIDTH : Int)).state.board 5 7 = Value.piece Player.player1 := by
  decide

/-- C3, amended: for the column indices `-1` and `WIDTH`, in every state whose board has its
`HEIGHT` rows, a click leaves every cell inside the grid, the current player, the game-over
flag and the scheduled alerts unchanged.  It returns with the state unchanged when the game
is over or `findSpotForCol` finds no row; otherwise the current player is stored at
`board[y][x]`, outside the grid, in a place that held no piece, and the handler is aborted
by the `TypeError` of the table update. -/
theorem drop_outside_grid_keeps_grid_cells (g : Game) (x : Int) (hx : x = -1 ∨ x = (WIDTH : Int))
    (hrows : g.board.length = HEIGHT) :
    ((handleClick g x).state.currPlayer = g.currPlayer ∧
        (handleClick g x).state.gameOver = g.gameOver ∧
        (handleClick g x).state.alerts = g.alerts ∧
        ∀ y' x' : Int, 0 ≤ x' → x' < WIDTH →
          cellAt (handleClick g x).state.board y' x' = cellAt g.board y' x') ∧
      (g.gameOver = true ∨ findSpotForCol g x = none → handleClick g x = Completion.returned g) ∧
      (∀ y : Nat, g.gameOver = false → findSpotForCol g x = some y →
        handleClick g x = Completion.threw (placePiece g y x) ∧
          (cellAt g.board y x).truthy = false ∧
          cellAt (placePiece g y x).board y x = Value.piece g.currPlayer) := by
  have hout : x < 0 ∨ (WIDTH : Int) ≤ x := by omega
  have hthrow : ∀ y : Nat, g.gameOver = false → findSpotForCol g x = some y →
      handleClick g x = Completion.threw (placePiece g y x) ∧
        (cellAt g.board y x).truthy = false ∧
        cellAt (placePiece g y x).board y x = Value.piece g.currPlayer := by
    intro y hgo hy
    have hlt : y < g.board.length := by rw [hrows]; exact findSpotForCol_lt hy
    refine ⟨handleClick_outside hgo hy hout, ((findSpotLoop_eq_some _ _ _ _).1 hy).2.1, ?_⟩
    unfold placePiece
    dsimp only
    rw [cellAt_setCell _ _ _ _ hlt, if_pos ⟨rfl, rfl⟩]
  have hret : g.gameOver = true ∨ findSpotForCol g x = none →
      handleClick g x = Completion.returned g := by
    rintro (h | h)
    · exact handleClick_over h x
    · exact handleClick_none h
  refine ⟨?_, hret, hthrow⟩
  cases hgo : g.gameOver with
  | true =>
    rw [hret (Or.inl hgo)]
    exact ⟨rfl, hgo, rfl, fun _ _ _ _ => rfl⟩
  | false =>
    cases hy : findSpotForCol g x with
    | none =>
      rw [hret (Or.inr hy)]
      exact ⟨rfl, hgo, rfl, fun _ _ _ _ => rfl⟩
    | some y =>
      have hlt : y < g.board.length := by rw [hrows]; exact findSpotForCol_lt hy
      rw [(hthrow y hgo hy).1]
      refine ⟨rfl, hgo, rfl, ?_⟩
      intro y' x' h0 h1
      show cellAt (setCell g.board y x (Value.piece g.currPlayer)) y' x' = _
      rw [cellAt_setCell _ _ _ _ hlt, if_neg]
      rintro ⟨-, h⟩
      omega

/-- Witness of C3 amended: the theorem at a new game and column index `-1`, where row 5 is
found and the handler is aborted after the write. -/
theorem drop_outside_grid_keeps_grid_cells_witness :
    newGame.board.length = HEIGHT ∧ findSpotForCol newGame (-1) = some 5 ∧
      ((handleClick newGame (-1)).state.currPlayer = newGame.currPlayer ∧
        (handleClick newGame (-1)).state.gameOver = newGame.gameOver ∧
        (handleClick newGame (-1)).state.alerts = newGame.alerts ∧
        ∀ y' x' : Int, 0 ≤ x' → x' < WIDTH →
          cellAt (handleClick newGame (-1)).state.board y' x' = cellAt newGame.board y' x') ∧
      (handleClick newGame (-1) = Completion.threw (placePiece newGame 5 (-1)) ∧
        (cellAt newGame.board (5 : Nat) (-1)).truthy = false ∧
        cellAt (placePiece newGame 5 (-1)).board (5 : Nat) (-1) =
          Value.piece newGame.currPlayer) :=
  ⟨by decide, by decide,
    (drop_outside_grid_keeps_grid_cells newGame (-1) (Or.inl rfl) (by decide)).1,
    (drop_outside_grid_keeps_grid_cells newGame (-1) (Or.inl rfl) (by decide)).2.2 5 (by decide)
      (by decide)⟩

/-! ## Rejected drops (C4, C5) -/

/-- C4: once `gameOver` is true, a click on any column returns with the state (board,
current player, game-over flag) unchanged, and so does any sequence of clicks. -/
theorem game_over_rejects_every_drop (g : Game) (h : g.gameOver = true) :
    (∀ x : Int, handleClick g x = Completion.returned g) ∧ ∀ xs : List Int, clicks g xs = g := by
  refine ⟨handleClick_over h, ?_⟩
  intro xs
  induction xs with
  | nil => rfl
  | cons x xs ih =>
    unfold clicks at ih ⊢
    rw [List.foldl_cons, handleClick_over h x]
    exact ih

/-- Witness of C4: the theorem at the state after player 1 has won in column 0. -/
theorem game_over_rejects_every_drop_witness :
    (clicks newGame [0, 1, 0, 1, 0, 1, 0]).gameOver = true ∧
      ((∀ x : Int, handleClick (clicks newGame [0, 1, 0, 1, 0, 1, 0]) x =
          Completion.returned (clicks newGame [0, 1, 0, 1, 0, 1, 0])) ∧
        ∀ xs : List Int,
          clicks (clicks newGame [0, 1, 0, 1, 0, 1, 0]) xs = clicks newGame [0, 1, 0, 1, 0, 1, 0]) :=
  ⟨by decide, game_over_rejects_every_drop (clicks newGame [0, 1, 0, 1, 0, 1, 0]) (by decide)⟩

/-- C5: on a `HEIGHT` by `WIDTH` board, a click on a column `0 ≤ x < WIDTH` that has no
empty cell returns with the whole state unchanged. -/
theorem full_column_drop_rejected (g : Game) (x : Int) (hg : Grid g.board) (hx0 : 0 ≤ x)
    (hx : x < WIDTH) (hfull : ∀ y : Nat, y < HEIGHT → cellAt g.board y x ≠ Value.null) :
    handleClick g x = Completion.returned g ∧ (handleClick g x).state = g := by
  have hnone : findSpotForCol g x = none := by
    unfold findSpotForCol
    rw [findSpotLoop_eq_none]
    intro y hy
    cases ht : (cellAt g.board y x).truthy
    · exact absurd ((hg.truthy_eq_false_iff hy hx0 hx).1 ht) (hfull y hy)
    · rfl
  rw [handleClick_none hnone]
  exact ⟨rfl, rfl⟩

/-- Witness of C5: the theorem at the state after six drops into column 2. -/
theorem full_column_drop_rejected_witness :
    Grid (clicks newGame [2, 2, 2, 2, 2, 2]).board ∧
      (∀ y : Nat, y < HEIGHT → cellAt (clicks newGame [2, 2, 2, 2, 2, 2]).board y 2 ≠ Value.null) ∧
      handleClick (clicks newGame [2, 2, 2, 2, 2, 2]) 2 =
        Completion.returned (clicks newGame [2, 2, 2, 2, 2, 2]) :=
  ⟨by decide, by decide,
    (full_column_drop_rejected (clicks newGame [2, 2, 2, 2, 2, 2]) 2 (by decide) (by decide)
      (by decide) (by decide)).1⟩

/-! ## Accepted drops (C6, C7, C8) -/

theorem findSpotForCol_of_free {g : Game} {x : Int} (hg : Grid g.board) (hx0 : 0 ≤ x)
    (hx : x < WIDTH) (hfree : ∃ y0 : Nat, y0 < HEIGHT ∧ cellAt g.board y0 x = Value.null) :
    ∃ y : Nat, findSpotForCol g x = some y ∧ y < HEIGHT ∧ cellAt g.board y x = Value.null := by
  cases hy : findSpotForCol g x with
  | none =>
    obtain ⟨y0, h0, hnull⟩ := hfree
    have h := (findSpotLoop_eq_none g.board x HEIGHT).1 hy y0 h0
    rw [hnull] at h
    exact Bool.noConfusion h
  | some y =>
    have h := (findSpotLoop_eq_some g.board x HEIGHT y).1 hy
    exact ⟨y, rfl, h.1, (hg.truthy_eq_false_iff h.1 hx0 hx).1 h.2.1⟩

theorem handleClick_accept_state {g : Game} {x : Int} {y : Nat} (hgo : g.gameOver = false)
    (hy : findSpotForCol g x = some y) (hx0 : 0 ≤ x) (hx : x < WIDTH) :
    ∃ g', handleClick g x = Completion.returned g' ∧
      g'.board = setCell g.board y x (Value.piece g.currPlayer) ∧
      g'.gameOver = (checkForWin (placePiece g y x) || boardFull (placePiece g y x).board) ∧
      g'.currPlayer = (if g'.gameOver then g.currPlayer else otherPlayer g.currPlayer) := by
  refine ⟨_, handleClick_accept hgo hy hx0 hx, ?_⟩
  cases hw : checkForWin (placePiece g y x)
  · cases hf : boardFull (placePiece g y x).board
    · simp [placePiece, hgo]
    · simp [placePiece, endGame]
  · simp [placePiece, endGame]

theorem placePiece_cellAt (g : Game) (y : Nat) (x : Int) (hy : y < g.board.length)
    (y' x' : Int) :
    cellAt (placePiece g y x).board y' x' =
      if y' = y ∧ x' = x then Value.piece g.currPlayer else cellAt g.board y' x' :=
  cellAt_setCell g.board y x _ hy y' x'

/-- C6: an accepted drop into a column `0 ≤ x < WIDTH` (board `HEIGHT` by `WIDTH`, game not
over, column not full) changes exactly one cell: `(findSpotForCol x, x)` was empty and holds
the player who moved afterwards; every other cell is unchanged. -/
theorem accepted_drop_changes_one_cell (g : Game) (x : Int) (hg : Grid g.board) (hx0 : 0 ≤ x)
    (hx : x < WIDTH) (hgo : g.gameOver = false)
    (hfree : ∃ y0 : Nat, y0 < HEIGHT ∧ cellAt g.board y0 x = Value.null) :
    ∃ (y : Nat) (g' : Game), findSpotForCol g x = some y ∧ y < HEIGHT ∧
      handleClick g x = Completion.returned g' ∧
      cellAt g.board y x = Value.null ∧
      cellAt g'.board y x = Value.piece g.currPlayer ∧
      ∀ y' x' : Int, ¬(y' = y ∧ x' = x) → cellAt g'.board y' x' = cellAt g.board y' x' := by
  obtain ⟨y, hy, hlt, hnull⟩ := findSpotForCol_of_free hg hx0 hx hfree
  obtain ⟨g', hret, hb, -, -⟩ := handleClick_accept_state hgo hy hx0 hx
  have hlen : y < g.board.length := by rw [hg.1]; exact hlt
  refine ⟨y, g', hy, hlt, hret, hnull, ?_, ?_⟩
  · rw [hb, cellAt_setCell _ _ _ _ hlen, if_pos ⟨rfl, rfl⟩]
  · intro y' x' hne
    rw [hb, cellAt_setCell _ _ _ _ hlen, if_neg hne]

/-- Witness of C6: the theorem at the state after the drops 3, 3, 4 and column 3. -/
theorem accepted_drop_changes_one_cell_witness :
    Grid (clicks newGame [3, 3, 4]).board ∧ (clicks newGame [3, 3, 4]).gameOver = false ∧
      ∃ (y : Nat) (g' : Game), findSpotForCol (clicks newGame [3, 3, 4]) 3 = some y ∧ y < HEIGHT ∧
        handleClick (clicks newGame [3, 3, 4]) 3 = Completion.returned g' ∧
        cellAt (clicks newGame [3, 3, 4]).board y 3 = Value.null ∧
        cellAt g'.board y 3 = Value.piece (clicks newGame [3, 3, 4]).currPlayer ∧
        ∀ y' x' : Int, ¬(y' = y ∧ x' = 3) →
          cellAt g'.board y' x' = cellAt (clicks newGame [3, 3, 4]).board y' x' :=
  ⟨by decide, by decide,
    accepted_drop_changes_one_cell (clicks newGame [3, 3, 4]) 3 (by decide) (by decide)
      (by decide) (by decide) ⟨0, by decide, by decide⟩⟩

/-- C7: after an accepted drop, if the game is not over (the move made neither a win nor a
tie) the current player is the other player, player 1 becoming player 2 and player 2
becoming player 1; if the move ended the game (win or tie) the current player is still the
player who made it. -/
theorem turn_switches_unless_game_ends (g : Game) (x : Int) (hg : Grid g.board) (hx0 : 0 ≤ x)
    (hx : x < WIDTH) (hgo : g.gameOver = false)
    (hfree : ∃ y0 : Nat, y0 < HEIGHT ∧ cellAt g.board y0 x = Value.null) :
    ∃ (y : Nat) (g' : Game), findSpotForCol g x = some y ∧
      handleClick g x = Completion.returned g' ∧
      (g'.gameOver = true ↔
        checkForWin (placePiece g y x) = true ∨ boardFull (placePiece g y x).board = true) ∧
      (g'.gameOver = false →
        g'.currPlayer ≠ g.currPlayer ∧
          (g.currPlayer = Player.player1 → g'.currPlayer = Player.player2) ∧
          (g.currPlayer = Player.player2 → g'.currPlayer = Player.player1)) ∧
      (g'.gameOver = true → g'.currPlayer = g.currPlayer) := by
  obtain ⟨y, hy, -, -⟩ := findSpotForCol_of_free hg hx0 hx hfree
  obtain ⟨g', hret, -, hover, hcur⟩ := handleClick_accept_state hgo hy hx0 hx
  refine ⟨y, g', hy, hret, ?_, ?_, ?_⟩
  · rw [hover, Bool.or_eq_true]
  · intro h
    rw [h] at hcur
    rw [hcur]
    cases g.currPlayer <;> simp [otherPlayer]
  · intro h
    rw [h] at hcur
    exact hcur

/-- Witness of C7: the theorem at a new game and column 0. -/
theorem turn_switches_unless_game_ends_witness :
    Grid newGame.board ∧ newGame.gameOver = false ∧
      ∃ (y : Nat) (g' : Game), findSpotForCol newGame 0 = some y ∧
        handleClick newGame 0 = Completion.returned g' ∧
        (g'.gameOver = true ↔
          checkForWin (placePiece newGame y 0) = true ∨
            boardFull (placePiece newGame y 0).board = true) ∧
        (g'.gameOver = false →
          g'.currPlayer ≠ newGame.currPlayer ∧
            (newGame.currPlayer = Player.player1 → g'.currPlayer = Player.player2) ∧
            (newGame.currPlayer = Player.player2 → g'.currPlayer = Player.player1)) ∧
        (g'.gameOver = true → g'.currPlayer = newGame.currPlayer) :=
  ⟨by decide, by decide,
    turn_switches_unless_game_ends newGame 0 (by decide) (by decide) (by decide) (by decide)
      ⟨5, by decide, by decide⟩⟩

theorem boardFull_of_cells {b : Board} (hg : Grid b)
    (h : ∀ y x : Nat, y < HEIGHT → x < WIDTH → cellAt b y x ≠ Value.null) :
    boardFull b = true := by
  unfold boardFull
  rw [List.all_eq_true]
  intro r hr
  rw [List.all_eq_true]
  intro v hv
  obtain ⟨i, hi⟩ := List.mem_iff_getElem?.1 hr
  obtain ⟨j, hj⟩ := List.mem_iff_getElem?.1 hv
  have hil : i < HEIGHT := by
    rw [← hg.1]
    exact (List.getElem?_eq_some.1 hi).1
  have hjl : j < WIDTH := by
    rw [← (hg.2 r hr).1]
    exact (List.getElem?_eq_some.1 hj).1
  have hcell : cellAt b i j = v := by
    unfold cellAt Row.get
    rw [if_pos (Int.ofNat_nonneg i), Int.toNat_ofNat, hi]
    dsimp only
    rw [if_pos (Int.ofNat_nonneg j), Int.toNat_ofNat, hj]
    rfl
  have := h i j hil hjl
  rw [hcell] at this
  simpa using this

theorem winMessage_ne_tieMessage (p : Player) : winMessage p ≠ tieMessage := by
  cases p <;> decide

/-- C8: an accepted drop that fills the last empty cell of the board and makes a line of four
for the player who moved ends the game with that player's win message, not with the tie
message, although the board is full. -/
theorem last_cell_win_is_a_win (g : Game) (x : Int) (y : Nat) (hg : Grid g.board) (hx0 : 0 ≤ x)
    (hx : x < WIDTH) (hgo : g.gameOver = false) (hy : findSpotForCol g x = some y)
    (hlast : ∀ y' : Nat, y' < HEIGHT → ∀ x' : Nat, x' < WIDTH → ¬(y' = y ∧ (x' : Int) = x) →
      cellAt g.board y' x' ≠ Value.null)
    (hline : ∃ y0 x0 : Int, ∃ d ∈ directions,
      lineOf (placePiece g y x).board g.currPlayer y0 x0 d) :
    handleClick g x = Completion.returned (endGame (placePiece g y x) (winMessage g.currPlayer)) ∧
      boardFull (placePiece g y x).board = true ∧
      (handleClick g x).state.gameOver = true ∧
      (handleClick g x).state.alerts = g.alerts ++ [winMessage g.currPlayer] ∧
      winMessage g.currPlayer ≠ tieMessage := by
  have hwin : checkForWin (placePiece g y x) = true :=
    (checkForWin_iff_line (placePiece g y x)).2 hline
  have hret := handleClick_accept hgo hy hx0 hx
  rw [if_pos hwin] at hret
  have hlen : y < g.board.length := by rw [hg.1]; exact findSpotForCol_lt hy
  refine ⟨hret, ?_, ?_, ?_, winMessage_ne_tieMessage _⟩
  · apply boardFull_of_cells (hg.setCell y hx0 hx (by simp))
    intro y' x' hy' hx'
    show cellAt (placePiece g y x).board y' x' ≠ Value.null
    rw [placePiece_cellAt g y x hlen]
    by_cases he : ((y' : Int) = y ∧ (x' : Int) = x)
    · rw [if_pos he]; simp
    · rw [if_neg he]
      exact hlast y' hy' x' hx' (fun h => he ⟨by exact_mod_cast h.1, h.2⟩)
  · rw [hret]; rfl
  · rw [hret]; rfl

/-- The state `lastCellState` is the one the drops `lastCellDrops` lead to. -/
theorem lastCellState_reached : clicks newGame lastCellDrops = lastCellState := by
  decide!

/-- Witness of C8: the theorem at `lastCellState`, where player 2 fills `(0, 5)` and
completes the diagonal `(0,5), (1,4), (2,3), (3,2)`. -/
theorem last_cell_win_is_a_win_witness :
    Grid lastCellState.board ∧ lastCellState.gameOver = false ∧
      findSpotForCol lastCellState 5 = some 0 ∧
      (handleClick lastCellState 5 =
          Completion.returned
            (endGame (placePiece lastCellState 0 5) (winMessage lastCellState.currPlayer)) ∧
        boardFull (placePiece lastCellState 0 5).board = true ∧
        (handleClick lastCellState 5).state.gameOver = true ∧
        (handleClick lastCellState 5).state.alerts =
          lastCellState.alerts ++ [winMessage lastCellState.currPlayer] ∧
        winMessage lastCellState.currPlayer ≠ tieMessage) :=
  ⟨by decide, by decide, by decide,
    last_cell_win_is_a_win lastCellState 5 0 (by decide) (by decide) (by decide) (by decide)
      (by decide) (by decide)
      ⟨0, 5, (1, -1), by decide, (lineOf_iff _ _ _ _ _).2 (by decide)⟩⟩

/-! ## Gravity (C9) -/

theorem occupied_iff (b : Board) (y x : Int) :
    occupied b y x ↔ ∃ p, cellAt b y x = Value.piece p := by
  unfold occupied
  cases cellAt b y x <;> simp [Value.truthy]

theorem not_occupied_of_neg (b : Board) {y : Int} (x : Int) (hy : y < 0) : ¬ occupied b y x := by
  unfold occupied cellAt
  rw [if_neg (by omega)]
  simp [Value.truthy]

theorem handleClick_board_cases (g : Game) (x : Int) (hx : validColumn x) :
    (handleClick g x).state = g ∨
      ∃ y : Nat, findSpotForCol g x = some y ∧
        (handleClick g x).state.board = setCell g.board y x (Value.piece g.currPlayer) := by
  cases hgo : g.gameOver with
  | true => left; rw [handleClick_over hgo]; rfl
  | false =>
    cases hy : findSpotForCol g x with
    | none => left; rw [handleClick_none hy]; rfl
    | some y =>
      right
      obtain ⟨g', hret, hb, -, -⟩ := handleClick_accept_state hgo hy hx.1 hx.2
      exact ⟨y, rfl, by rw [hret]; exact hb⟩

theorem handleClick_preserves_gravity (g : Game) (x : Int) (hx : validColumn x)
    (hg : Grid g.board) (hgrav : Gravity g.board) :
    Grid (handleClick g x).state.board ∧ Gravity (handleClick g x).state.board := by
  rcases handleClick_board_cases g x hx with h | ⟨y, hy, hb⟩
  · rw [h]; exact ⟨hg, hgrav⟩
  · rw [hb]
    refine ⟨hg.setCell y hx.1 hx.2 (by simp), ?_⟩
    have hspot := (findSpotLoop_eq_some g.board x HEIGHT y).1 hy
    have hlen : y < g.board.length := by rw [hg.1]; exact hspot.1
    intro x1 hx1 y1 hy1 y2 hy2 hocc hlt
    unfold occupied at hocc ⊢
    rw [cellAt_setCell _ _ _ _ hlen] at hocc ⊢
    by_cases h2 : ((y2 : Int) = y ∧ (x1 : Int) = x)
    · rw [if_pos h2]; rfl
    · rw [if_neg h2]
      by_cases h1 : ((y1 : Int) = y ∧ (x1 : Int) = x)
      · have hyy : y1 = y := by exact_mod_cast h1.1
        rw [h1.2]
        exact hspot.2.2 y2 (by omega) hy2
      · rw [if_neg h1] at hocc
        exact hgrav x1 hx1 y1 hy1 y2 hy2 hocc hlt

theorem clicks_preserve_gravity (xs : List Int) (hxs : ∀ x ∈ xs, validColumn x) (g : Game)
    (hg : Grid g.board) (hgrav : Gravity g.board) :
    Grid (clicks g xs).board ∧ Gravity (clicks g xs).board := by
  induction xs generalizing g with
  | nil => exact ⟨hg, hgrav⟩
  | cons x xs ih =>
    have hstep := handleClick_preserves_gravity g x (hxs x (List.mem_cons_self _ _)) hg hgrav
    exact ih (fun z hz => hxs z (List.mem_cons_of_mem _ hz)) _ hstep.1 hstep.2

/-- C9: in every state reached from a new game by clicks on columns `0 .. WIDTH-1`, for
every column `x` of the grid and all rows `y < y' < HEIGHT`, if the cell `(y, x)` is
occupied then the cell `(y', x)` is occupied. -/
theorem gravity_of_reachable (xs : List Int) (hxs : ∀ x ∈ xs, validColumn x) (x y y' : Int)
    (hx : validColumn x) (hocc : occupied (clicks newGame xs).board y x) (hlt : y < y')
    (hH : y' < HEIGHT) : occupied (clicks newGame xs).board y' x := by
  have hinv := clicks_preserve_gravity xs hxs newGame (by decide) (by decide)
  have hy0 : 0 ≤ y := by
    by_contra hneg
    exact not_occupied_of_neg _ x (by omega) hocc
  have h := hinv.2 x.toNat (by have := hx.1; have := hx.2; omega) y.toNat (by omega) y'.toNat
    (by omega)
  rw [Int.toNat_of_nonneg hy0, Int.toNat_of_nonneg hx.1, Int.toNat_of_nonneg (by omega)] at h
  exact h hocc (by omega)

/-- Witness of C9: the theorem at the state after the drops 3, 3, 4, for the cells `(4, 3)`
and `(5, 3)`. -/
theorem gravity_of_reachable_witness :
    (∀ x ∈ [3, 3, (4 : Int)], validColumn x) ∧ validColumn 3 ∧
      occupied (clicks newGame [3, 3, 4]).board 4 3 ∧
      occupied (clicks newGame [3, 3, 4]).board 5 3 :=
  ⟨by decide, by decide, by decide,
    gravity_of_reachable [3, 3, 4] (by decide) 3 4 5 (by decide) (by decide) (by decide)
      (by decide)⟩

/-! ## Rotation by 180 degrees (C10) -/

theorem cellAt_rotate180 {b : Board} (hg : Grid b) (y x : Int) (hy0 : 0 ≤ y)
    (hy : y < HEIGHT) (hx0 : 0 ≤ x) (hx : x < WIDTH) :
    cellAt (rotate180 b) y x = cellAt b ((HEIGHT : Int) - 1 - y) ((WIDTH : Int) - 1 - x) := by
  have hyn : y.toNat < b.length := by rw [hg.1]; omega
  have hyn' : ((HEIGHT : Int) - 1 - y).toNat = b.length - 1 - y.toNat := by rw [hg.1]; omega
  have hlt' : b.length - 1 - y.toNat < HEIGHT := by rw [hg.1]; omega
  obtain ⟨r, hr, hlen, -⟩ := hg.row hlt'
  have hxn : x.toNat < r.elems.length := by omega
  have hxn' : ((WIDTH : Int) - 1 - x).toNat = r.elems.length - 1 - x.toNat := by omega
  unfold cellAt rotate180 Row.get
  rw [if_pos hy0, if_pos (by omega), List.getElem?_reverse (by simpa using hyn),
    List.length_map, List.getElem?_map, hyn', hr]
  dsimp only [Option.map_some']
  rw [if_pos hx0, if_pos (by omega), List.getElem?_reverse hxn, hxn']

theorem lineOf_flip {b1 b2 : Board} (p : Player)
    (h : ∀ y x : Int, 0 ≤ y → y < HEIGHT → 0 ≤ x → x < WIDTH →
      cellAt b1 y x = cellAt b2 ((HEIGHT : Int) - 1 - y) ((WIDTH : Int) - 1 - x))
    (y x : Int) (d : Int × Int) (hl : lineOf b1 p y x d) :
    lineOf b2 p ((HEIGHT : Int) - 1 - y - 3 * d.1) ((WIDTH : Int) - 1 - x - 3 * d.2) d := by
  rw [lineOf_iff] at hl ⊢
  have key : ∀ k k' : Int, k ∈ [0, 1, 2, (3 : Int)] → k' = 3 - k →
      (0 ≤ (HEIGHT : Int) - 1 - y - 3 * d.1 + k' * d.1 ∧
          (HEIGHT : Int) - 1 - y - 3 * d.1 + k' * d.1 < HEIGHT) ∧
        (0 ≤ (WIDTH : Int) - 1 - x - 3 * d.2 + k' * d.2 ∧
          (WIDTH : Int) - 1 - x - 3 * d.2 + k' * d.2 < WIDTH) ∧
        cellAt b2 ((HEIGHT : Int) - 1 - y - 3 * d.1 + k' * d.1)
          ((WIDTH : Int) - 1 - x - 3 * d.2 + k' * d.2) = Value.piece p := by
    intro k k' hk hk'
    obtain ⟨⟨hy0, hy1⟩, ⟨hx0, hx1⟩, hc⟩ := hl k hk
    have e1 : (HEIGHT : Int) - 1 - y - 3 * d.1 + k' * d.1 = (HEIGHT : Int) - 1 - (y + k * d.1) := by
      rw [hk']; ring
    have e2 : (WIDTH : Int) - 1 - x - 3 * d.2 + k' * d.2 = (WIDTH : Int) - 1 - (x + k * d.2) := by
      rw [hk']; ring
    rw [e1, e2, ← h _ _ hy0 hy1 hx0 hx1]
    exact ⟨⟨by omega, by omega⟩, ⟨by omega, by omega⟩, hc⟩
  intro k' hk'
  simp only [List.mem_cons, List.mem_singleton, List.not_mem_nil, or_false] at hk'
  refine key (3 - k') k' ?_ (by ring)
  simp only [List.mem_cons, List.mem_singleton, List.not_mem_nil, or_false]
  omega

theorem checkForWin_rotate180 (g : Game) (hg : Grid g.board) :
    checkForWin { g with board := rotate180 g.board } = checkForWin g := by
  have hcell := fun y x => cellAt_rotate180 hg y x
  have hcell' : ∀ y x : Int, 0 ≤ y → y < HEIGHT → 0 ≤ x → x < WIDTH →
      cellAt g.board y x =
        cellAt (rotate180 g.board) ((HEIGHT : Int) - 1 - y) ((WIDTH : Int) - 1 - x) := by
    intro y x hy0 hy hx0 hx
    rw [cellAt_rotate180 hg _ _ (by omega) (by omega) (by omega) (by omega)]
    congr 1 <;> ring
  rw [Bool.eq_iff_iff, checkForWin_iff_line, checkForWin_iff_line]
  constructor
  · rintro ⟨y, x, d, hd, hl⟩
    exact ⟨_, _, d, hd, lineOf_flip g.currPlayer hcell y x d hl⟩
  · rintro ⟨y, x, d, hd, hl⟩
    exact ⟨_, _, d, hd, lineOf_flip g.currPlayer hcell' y x d hl⟩

/-- C10: on a `HEIGHT` by `WIDTH` board, `checkForWin` returns the same boolean on the board
turned by 180 degrees (`B'[y][x] = B[HEIGHT-1-y][WIDTH-1-x]`) as on the board itself; and when
the current player occupies `(5,0), (4,1), (3,2), (2,3)`, that is a win, the turned board has
the player on `(0,6), (1,5), (2,4), (3,3)`, and that is a win too. -/
theorem win_detection_rotation_symmetric (g : Game) (hg : Grid g.board) :
    checkForWin (rotateGame g) = checkForWin g ∧
      (∀ y x : Int, 0 ≤ y → y < HEIGHT → 0 ≤ x → x < WIDTH →
        cellAt (rotateGame g).board y x =
          cellAt g.board ((HEIGHT : Int) - 1 - y) ((WIDTH : Int) - 1 - x)) ∧
      (cellAt g.board 5 0 = Value.piece g.currPlayer ∧
          cellAt g.board 4 1 = Value.piece g.currPlayer ∧
          cellAt g.board 3 2 = Value.piece g.currPlayer ∧
          cellAt g.board 2 3 = Value.piece g.currPlayer →
        checkForWin g = true ∧
          (cellAt (rotateGame g).board 0 6 = Value.piece g.currPlayer ∧
            cellAt (rotateGame g).board 1 5 = Value.piece g.currPlayer ∧
            cellAt (rotateGame g).board 2 4 = Value.piece g.currPlayer ∧
            cellAt (rotateGame g).board 3 3 = Value.piece g.currPlayer) ∧
          checkForWin (rotateGame g) = true) := by
  have hrot : checkForWin (rotateGame g) = checkForWin g := checkForWin_rotate180 g hg
  have hcell : ∀ y x : Int, 0 ≤ y → y < HEIGHT → 0 ≤ x → x < WIDTH →
      cellAt (rotateGame g).board y x =
        cellAt g.board ((HEIGHT : Int) - 1 - y) ((WIDTH : Int) - 1 - x) :=
    fun y x => cellAt_rotate180 hg y x
  refine ⟨hrot, hcell, ?_⟩
  rintro ⟨h50, h41, h32, h23⟩
  have hwin : checkForWin g = true := by
    rw [checkForWin_iff_line]
    refine ⟨2, 3, (1, -1), by simp [directions], ?_⟩
    rw [lineOf_iff]
    intro k hk
    simp only [List.mem_cons, List.mem_singleton, List.not_mem_nil, or_false] at hk
    rcases hk with rfl | rfl | rfl | rfl <;> simp [HEIGHT, WIDTH, h50, h41, h32, h23]
  refine ⟨hwin, ⟨?_, ?_, ?_, ?_⟩, by rw [hrot]; exact hwin⟩
  · rw [hcell 0 6 (by decide) (by decide) (by decide) (by decide)]; exact h50
  · rw [hcell 1 5 (by decide) (by decide) (by decide) (by decide)]; exact h41
  · rw [hcell 2 4 (by decide) (by decide) (by decide) (by decide)]; exact h32
  · rw [hcell 3 3 (by decide) (by decide) (by decide) (by decide)]; exact h23

/-- Witness of C10: the theorem at the state after `diagonalDrops`, where player 1 holds
`(5,0), (4,1), (3,2), (2,3)`. -/
theorem win_detection_rotation_symmetric_witness :
    Grid (clicks newGame diagonalDrops).board ∧
      checkForWin (rotateGame (clicks newGame diagonalDrops)) =
        checkForWin (clicks newGame diagonalDrops) ∧
      checkForWin (clicks newGame diagonalDrops) = true ∧
      checkForWin (rotateGame (clicks newGame diagonalDrops)) = true :=
  ⟨by decide,
    (win_detection_rotation_symmetric (clicks newGame diagonalDrops) (by decide)).1,
    ((win_detection_rotation_symmetric (clicks newGame diagonalDrops) (by decide)).2.2
      (by decide)).1,
    ((win_detection_rotation_symmetric (clicks newGame diagonalDrops) (by decide)).2.2
      (by decide)).2.2⟩

/-! ## Filling one column (C11) -/

theorem column_fill_nat : ∀ xn : Nat, xn < WIDTH →
    (∀ k : Nat, k < HEIGHT →
      accepted (clicks newGame (columnDrops xn k)) xn = true ∧
      findSpotForCol (clicks newGame (columnDrops xn k)) xn = some (HEIGHT - (k + 1)) ∧
      handleClick (clicks newGame (columnDrops xn k)) xn =
        Completion.returned (clicks newGame (columnDrops xn (k + 1))) ∧
      cellAt (clicks newGame (columnDrops xn (k + 1))).board ((HEIGHT - (k + 1) : Nat) : Int) xn =
        Value.piece (clicks newGame (columnDrops xn k)).currPlayer ∧
      (clicks newGame (columnDrops xn (k + 1))).gameOver = false) ∧
    accepted (clicks newGame (columnDrops xn HEIGHT)) xn = false ∧
    findSpotForCol (clicks newGame (columnDrops xn HEIGHT)) xn = none ∧
    handleClick (clicks newGame (columnDrops xn HEIGHT)) xn =
      Completion.returned (clicks newGame (columnDrops xn HEIGHT)) := by
  decide!

/-- C11: from a new game and for every column `0 ≤ x < WIDTH`, the first `HEIGHT` clicks on
`x` are all accepted: the click after `k` earlier ones (`k < HEIGHT`) lands the mover's piece
in row `HEIGHT - (k + 1)` and leaves the game not over; the click after `HEIGHT` earlier ones
finds no row and returns with the state unchanged. -/
theorem column_fills_bottom_up (x : Int) (hx : validColumn x) :
    (∀ k : Nat, k < HEIGHT →
      accepted (clicks newGame (columnDrops x k)) x = true ∧
      findSpotForCol (clicks newGame (columnDrops x k)) x = some (HEIGHT - (k + 1)) ∧
      handleClick (clicks newGame (columnDrops x k)) x =
        Completion.returned (clicks newGame (columnDrops x (k + 1))) ∧
      cellAt (clicks newGame (columnDrops x (k + 1))).board ((HEIGHT - (k + 1) : Nat) : Int) x =
        Value.piece (clicks newGame (columnDrops x k)).currPlayer ∧
      (clicks newGame (columnDrops x (k + 1))).gameOver = false) ∧
    accepted (clicks newGame (columnDrops x HEIGHT)) x = false ∧
    findSpotForCol (clicks newGame (columnDrops x HEIGHT)) x = none ∧
    handleClick (clicks newGame (columnDrops x HEIGHT)) x =
      Completion.returned (clicks newGame (columnDrops x HEIGHT)) := by
  obtain ⟨h0, h1⟩ := hx
  have hx' : x = (x.toNat : Int) := (Int.toNat_of_nonneg h0).symm
  rw [hx']
  exact column_fill_nat x.toNat (by omega)

/-- Witness of C11: the theorem at column 3, for the first click and for the seventh. -/
theorem column_fills_bottom_up_witness :
    validColumn 3 ∧ findSpotForCol (clicks newGame (columnDrops 3 0)) 3 = some (HEIGHT - (0 + 1)) ∧
      findSpotForCol (clicks newGame (columnDrops 3 HEIGHT)) 3 = none :=
  ⟨by decide, ((column_fills_bottom_up 3 (by decide)).1 0 (by decide)).2.1,
    (column_fills_bottom_up 3 (by decide)).2.2.1⟩

/-! ## The vertical-win scenario (C12) -/

/-- C12: from a new game the clicks on columns 0, 1, 0, 1, 0, 1, 0 go as follows: the first
six are accepted and leave the game not over, player 1 to move; the seventh is accepted and
ends the game with the win message of player 1, whose pieces are in column 0 at rows 2, 3,
4 and 5. -/
theorem vertical_win_scenario :
    (∀ k : Nat, k < 6 →
      allAccepted newGame (verticalWinDrops.take (k + 1)) = true ∧
        (clicks newGame (verticalWinDrops.take (k + 1))).gameOver = false ∧
        (clicks newGame (verticalWinDrops.take (k + 1))).alerts = []) ∧
      (clicks newGame (verticalWinDrops.take 6)).currPlayer = Player.player1 ∧
      allAccepted newGame verticalWinDrops = true ∧
      handleClick (clicks newGame (verticalWinDrops.take 6)) 0 =
        Completion.returned (clicks newGame verticalWinDrops) ∧
      (clicks newGame verticalWinDrops).gameOver = true ∧
      (clicks newGame verticalWinDrops).alerts = ["Player 1. You are won!"] ∧
      checkForWin (clicks newGame verticalWinDrops) = true ∧
      (clicks newGame verticalWinDrops).currPlayer = Player.player1 ∧
      (∀ y : Nat, y < HEIGHT →
        (cellAt (clicks newGame verticalWinDrops).board y 0 = Value.piece Player.player1 ↔
          2 ≤ y)) := by
  decide!

/-! ## Counting cells -/

theorem countP_set_add (f : Value → Bool) (l : List Value) (i : Nat) (v : Value)
    (h : i < l.length) :
    (l.set i v).countP f + (if f l[i] then 1 else 0) = l.countP f + (if f v then 1 else 0) := by
  induction l generalizing i with
  | nil => simp at h
  | cons a l ih =>
    cases i with
    | zero =>
      simp only [List.set_cons_zero, List.countP_cons, List.getElem_cons_zero]
      omega
    | succ i =>
      have hi : i < l.length := by simpa using h
      have := ih i hi
      simp only [List.set_cons_succ, List.countP_cons, List.getElem_cons_succ]
      omega

theorem sum_map_set_add (g : Row → Nat) (b : Board) (i : Nat) (r : Row) (h : i < b.length) :
    ((b.set i r).map g).sum + g b[i] = (b.map g).sum + g r := by
  induction b generalizing i with
  | nil => simp at h
  | cons a l ih =>
    cases i with
    | zero =>
      simp only [List.set_cons_zero, List.map_cons, List.sum_cons, List.getElem_cons_zero]
      omega
    | succ i =>
      have hi : i < l.length := by simpa using h
      have := ih i hi
      simp only [List.set_cons_succ, List.map_cons, List.sum_cons, List.getElem_cons_succ]
      omega

theorem countCells_setCell (f : Value → Bool) {b : Board} (hg : Grid b) {y : Nat}
    (hy : y < HEIGHT) {x : Int} (hx0 : 0 ≤ x) (hx : x < WIDTH) (v : Value) :
    countCells f (setCell b y x v) + (if f (cellAt b y x) then 1 else 0) =
      countCells f b + (if f v then 1 else 0) := by
  obtain ⟨r, hr, hlen, -⟩ := hg.row hy
  have hyl : y < b.length := by rw [hg.1]; exact hy
  have hxl : x.toNat < r.elems.length := by omega
  have hry : b[y] = r := by
    have := List.getElem?_eq_getElem hyl
    rw [hr] at this
    exact (Option.some.inj this).symm
  have hcell : cellAt b y x = r.elems[x.toNat] := by
    unfold cellAt Row.get
    rw [if_pos (Int.ofNat_nonneg y), Int.toNat_ofNat, hr]
    dsimp only
    rw [if_pos hx0, List.getElem?_eq_getElem hxl]
    rfl
  have hput : (r.put x v).elems = r.elems.set x.toNat v := by
    unfold Row.put
    rw [if_pos hx0, if_pos hxl]
  unfold countCells setCell
  rw [hr]
  dsimp only
  have h1 := sum_map_set_add (fun r => r.elems.countP f) b y (r.put x v) hyl
  have h2 := countP_set_add f r.elems x.toNat v hxl
  rw [hry, hput] at h1
  rw [hcell]
  omega

theorem countCells_le (f : Value → Bool) (b : Board) (h : ∀ r ∈ b, r.elems.length = WIDTH) :
    countCells f b ≤ WIDTH * b.length ∧
      (countCells f b = WIDTH * b.length → ∀ r ∈ b, ∀ v ∈ r.elems, f v = true) := by
  induction b with
  | nil => simp [countCells]
  | cons a l ih =>
    have ha : a.elems.length = WIDTH := h a (List.mem_cons_self _ _)
    have hl := ih (fun r hr => h r (List.mem_cons_of_mem _ hr))
    have hle : a.elems.countP f ≤ WIDTH := by rw [← ha]; exact List.countP_le_length _
    have hsum : countCells f (a :: l) = a.elems.countP f + countCells f l := by
      simp [countCells]
    rw [hsum, List.length_cons, Nat.mul_succ]
    refine ⟨by omega, ?_⟩
    intro heq r hr
    rcases List.mem_cons.1 hr with rfl | hr'
    · have : r.elems.countP f = r.elems.length := by omega
      intro v hv
      exact (List.countP_eq_length.1 this) v hv
    · exact hl.2 (by omega) r hr'

/-! ## Induction over the reachable states -/

theorem accepted_eq_true_iff (g : Game) (x : Int) :
    accepted g x = true ↔ g.gameOver = false ∧ ∃ y, findSpotForCol g x = some y := by
  unfold accepted
  cases g.gameOver <;> cases findSpotForCol g x <;> simp

theorem handleClick_not_accepted {g : Game} {x : Int} (h : accepted g x = false) :
    handleClick g x = Completion.returned g := by
  cases hgo : g.gameOver with
  | true => exact handleClick_over hgo x
  | false =>
    cases hy : findSpotForCol g x with
    | none => exact handleClick_none hy
    | some y =>
      have : accepted g x = true := (accepted_eq_true_iff g x).2 ⟨hgo, y, hy⟩
      rw [h] at this
      exact Bool.noConfusion this

/-- What an accepted click on a grid column leaves behind: the three outcomes. -/
theorem handleClick_accept_outcome {g : Game} {x : Int} {y : Nat} (hgo : g.gameOver = false)
    (hy : findSpotForCol g x = some y) (hx : validColumn x) :
    (checkForWin (placePiece g y x) = true ∧
        (handleClick g x).state = endGame (placePiece g y x) (winMessage g.currPlayer)) ∨
      (checkForWin (placePiece g y x) = false ∧ boardFull (placePiece g y x).board = true ∧
        (handleClick g x).state = endGame (placePiece g y x) tieMessage) ∨
      (checkForWin (placePiece g y x) = false ∧ boardFull (placePiece g y x).board = false ∧
        (handleClick g x).state =
          { placePiece g y x with currPlayer := otherPlayer g.currPlayer }) := by
  rw [handleClick_accept hgo hy hx.1 hx.2]
  cases hw : checkForWin (placePiece g y x)
  · cases hf : boardFull (placePiece g y x).board
    · right; right; exact ⟨rfl, rfl, rfl⟩
    · right; left; exact ⟨rfl, rfl, rfl⟩
  · left; exact ⟨rfl, rfl⟩

theorem Grid.handleClick {g : Game} (hg : Grid g.board) {x : Int} (hx : validColumn x) :
    Grid (Connect4.handleClick g x).state.board := by
  rcases handleClick_board_cases g x hx with h | ⟨y, -, hb⟩
  · rw [h]; exact hg
  · rw [hb]; exact hg.setCell y hx.1 hx.2 (by simp)

theorem clicks_cons (g : Game) (x : Int) (xs : List Int) :
    clicks g (x :: xs) = clicks (handleClick g x).state xs := rfl

/-- Induction over the states reached from a new game by clicks on grid columns: a property
of the new game that every accepted click preserves holds in all of them. -/
theorem clicks_induction (P : Game → Prop) (h0 : P newGame)
    (hstep : ∀ (g : Game) (x : Int) (y : Nat), validColumn x → Grid g.board → P g →
      g.gameOver = false → findSpotForCol g x = some y → P (handleClick g x).state)
    (xs : List Int) (hxs : ∀ x ∈ xs, validColumn x) :
    Grid (clicks newGame xs).board ∧ P (clicks newGame xs) := by
  have gen : ∀ (xs : List Int) (g : Game), (∀ x ∈ xs, validColumn x) → Grid g.board → P g →
      Grid (clicks g xs).board ∧ P (clicks g xs) := by
    intro xs
    induction xs with
    | nil => intro g _ hg hp; exact ⟨hg, hp⟩
    | cons x xs ih =>
      intro g hv hg hp
      have hx := hv x (List.mem_cons_self _ _)
      rw [clicks_cons]
      apply ih _ (fun z hz => hv z (List.mem_cons_of_mem _ hz)) (hg.handleClick hx)
      cases ha : accepted g x with
      | false => rw [handleClick_not_accepted ha]; exact hp
      | true =>
        obtain ⟨hgo, y, hy⟩ := (accepted_eq_true_iff g x).1 ha
        exact hstep g x y hx hg hp hgo hy
  exact gen xs newGame hxs (by decide) h0

/-- The cell a grid click lands on was empty. -/
theorem landing_cell_null {g : Game} {x : Int} {y : Nat} (hg : Grid g.board)
    (hx : validColumn x) (hy : findSpotForCol g x = some y) :
    y < HEIGHT ∧ cellAt g.board y x = Value.null := by
  have h := (findSpotLoop_eq_some g.board x HEIGHT y).1 hy
  exact ⟨h.1, (hg.truthy_eq_false_iff h.1 hx.1 hx.2).1 h.2.1⟩

/-! ## Occupied cells and accepted clicks (C17) -/

theorem handleClick_accept_board {g : Game} {x : Int} {y : Nat} (hgo : g.gameOver = false)
    (hy : findSpotForCol g x = some y) (hx : validColumn x) :
    (handleClick g x).state.board = setCell g.board y x (Value.piece g.currPlayer) := by
  obtain ⟨g', hret, hb, -, -⟩ := handleClick_accept_state hgo hy hx.1 hx.2
  rw [hret]; exact hb

theorem occupiedCells_accept {g : Game} {x : Int} {y : Nat} (hg : Grid g.board)
    (hgo : g.gameOver = false) (hy : findSpotForCol g x = some y) (hx : validColumn x) :
    occupiedCells (handleClick g x).state.board = occupiedCells g.board + 1 := by
  obtain ⟨hlt, hnull⟩ := landing_cell_null hg hx hy
  have h := countCells_setCell Value.truthy hg hlt hx.1 hx.2 (Value.piece g.currPlayer)
  rw [hnull] at h
  rw [handleClick_accept_board hgo hy hx]
  unfold occupiedCells
  simpa [Value.truthy] using h

theorem piecesOf_accept {g : Game} {x : Int} {y : Nat} (hg : Grid g.board)
    (hgo : g.gameOver = false) (hy : findSpotForCol g x = some y) (hx : validColumn x)
    (p : Player) :
    piecesOf p (handleClick g x).state.board =
      piecesOf p g.board + (if p = g.currPlayer then 1 else 0) := by
  obtain ⟨hlt, hnull⟩ := landing_cell_null hg hx hy
  have h := countCells_setCell (fun v => v == Value.piece p) hg hlt hx.1 hx.2
    (Value.piece g.currPlayer)
  rw [hnull] at h
  rw [handleClick_accept_board hgo hy hx]
  unfold piecesOf
  by_cases hp : p = g.currPlayer
  · subst hp; simpa using h
  · have hp' : ¬ g.currPlayer = p := fun e => hp e.symm
    simpa [hp, hp'] using h

theorem occupiedCells_le {b : Board} (hg : Grid b) : occupiedCells b ≤ HEIGHT * WIDTH := by
  have h := (countCells_le Value.truthy b (fun r hr => (hg.2 r hr).1)).1
  rw [hg.1, Nat.mul_comm] at h
  exact h

theorem boardFull_of_occupiedCells {b : Board} (hg : Grid b)
    (h : occupiedCells b = HEIGHT * WIDTH) : boardFull b = true := by
  have hall := (countCells_le Value.truthy b (fun r hr => (hg.2 r hr).1)).2
    (by rw [hg.1, Nat.mul_comm]; exact h)
  unfold boardFull
  rw [List.all_eq_true]
  intro r hr
  rw [List.all_eq_true]
  intro v hv
  have := hall r hr v hv
  cases v <;> simp_all [Value.truthy]

theorem boardFull_iff_occupied {b : Board} (hg : Grid b) :
    boardFull b = true ↔
      ∀ y : Nat, y < HEIGHT → ∀ x : Nat, x < WIDTH → occupied b y x := by
  constructor
  · intro h y hy x hx
    obtain ⟨r, hr, hlen, -⟩ := hg.row hy
    have hxl : x < r.elems.length := by omega
    have hne := hg.cellAt_ne_undefined hy (Int.ofNat_nonneg x) (by exact_mod_cast hx)
    have hcell : cellAt b y x = r.elems[x] := by
      unfold cellAt Row.get
      rw [if_pos (Int.ofNat_nonneg y), Int.toNat_ofNat, hr]
      dsimp only
      rw [if_pos (Int.ofNat_nonneg x), Int.toNat_ofNat, List.getElem?_eq_getElem hxl]
      rfl
    unfold boardFull at h
    rw [List.all_eq_true] at h
    have h2 := h r (List.getElem?_mem hr)
    rw [List.all_eq_true] at h2
    have h3 := h2 _ (List.getElem_mem hxl)
    rw [← hcell] at h3
    unfold occupied
    cases hc : cellAt b y x <;> simp_all [Value.truthy]
  · intro h
    apply boardFull_of_cells hg
    intro y x hy hx hnull
    have := h y hy x hx
    unfold occupied at this
    rw [hnull] at this
    exact Bool.noConfusion this

theorem acceptedCount_cons (g : Game) (x : Int) (xs : List Int) :
    acceptedCount g (x :: xs) =
      (if accepted g x then 1 else 0) + acceptedCount (handleClick g x).state xs := rfl

theorem occupiedCells_clicks (xs : List Int) (hxs : ∀ x ∈ xs, validColumn x) (g : Game)
    (hg : Grid g.board) :
    occupiedCells (clicks g xs).board = occupiedCells g.board + acceptedCount g xs := by
  induction xs generalizing g with
  | nil => rfl
  | cons x xs ih =>
    have hx := hxs x (List.mem_cons_self _ _)
    rw [clicks_cons, ih (fun z hz => hxs z (List.mem_cons_of_mem _ hz)) _ (hg.handleClick hx)]
    rw [acceptedCount_cons]
    cases ha : accepted g x with
    | false =>
      rw [handleClick_not_accepted ha]
      simp [Completion.state]
    | true =>
      obtain ⟨hgo, y, hy⟩ := (accepted_eq_true_iff g x).1 ha
      rw [occupiedCells_accept hg hgo hy hx, if_pos rfl]
      omega

theorem full_board_game_over (xs : List Int) (hxs : ∀ x ∈ xs, validColumn x) :
    (clicks newGame xs).gameOver = false → boardFull (clicks newGame xs).board = false := by
  refine (clicks_induction (fun g => g.gameOver = false → boardFull g.board = false)
    (by decide) ?_ xs hxs).2
  intro g x y hx hg _ hgo hy
  rcases handleClick_accept_outcome hgo hy hx with ⟨-, h⟩ | ⟨-, -, h⟩ | ⟨-, hf, h⟩
  · rw [h]; intro hc; exact Bool.noConfusion hc
  · rw [h]; intro hc; exact Bool.noConfusion hc
  · rw [h]; intro _; exact hf

/-- C17: in every state reached from a new game by clicks on columns `0 .. WIDTH-1`, the
number of occupied cells equals the number of accepted clicks; if every cell of the grid is
occupied the game is over; and the number of accepted clicks is at most
`HEIGHT * WIDTH = 42`. -/
theorem at_most_42_accepted_drops (xs : List Int) (hxs : ∀ x ∈ xs, validColumn x) :
    occupiedCells (clicks newGame xs).board = acceptedCount newGame xs ∧
      ((∀ y : Nat, y < HEIGHT → ∀ x : Nat, x < WIDTH → occupied (clicks newGame xs).board y x) →
        (clicks newGame xs).gameOver = true) ∧
      acceptedCount newGame xs ≤ HEIGHT * WIDTH ∧ HEIGHT * WIDTH = 42 := by
  have hgrid : Grid (clicks newGame xs).board :=
    (clicks_induction (fun _ => True) trivial (fun _ _ _ _ _ _ _ _ => trivial) xs hxs).1
  have hcount : occupiedCells (clicks newGame xs).board = acceptedCount newGame xs := by
    rw [occupiedCells_clicks xs hxs newGame (by decide)]
    have : occupiedCells newGame.board = 0 := by decide
    omega
  refine ⟨hcount, ?_, ?_, by decide⟩
  · intro hall
    have hfull := (boardFull_iff_occupied hgrid).2 hall
    cases hgo : (clicks newGame xs).gameOver with
    | true => rfl
    | false =>
      rw [full_board_game_over xs hxs hgo] at hfull
      exact Bool.noConfusion hfull
  · rw [← hcount]
    exact occupiedCells_le hgrid

/-- Witness of C17: the theorem at the seven clicks of the vertical-win scenario followed by
two more, which are not accepted. -/
theorem at_most_42_accepted_drops_witness :
    (∀ x ∈ [0, 1, 0, 1, 0, 1, 0, 2, (3 : Int)], validColumn x) ∧
      acceptedCount newGame [0, 1, 0, 1, 0, 1, 0, 2, 3] = 7 ∧
      occupiedCells (clicks newGame [0, 1, 0, 1, 0, 1, 0, 2, 3]).board =
        acceptedCount newGame [0, 1, 0, 1, 0, 1, 0, 2, 3] :=
  ⟨by decide, by decide!, (at_most_42_accepted_drops [0, 1, 0, 1, 0, 1, 0, 2, 3] (by decide)).1⟩

/-! ## Ties (C13) -/

theorem hasLine_iff_checkForWin (g : Game) :
    hasLine g.board g.currPlayer ↔ checkForWin g = true :=
  (checkForWin_iff_line g).symm

theorem tie_after_filling (xs : List Int) (g : Game) (hg : Grid g.board)
    (halerts : g.alerts = []) (hxs : ∀ x ∈ xs, validColumn x)
    (hacc : allAccepted g xs = true) (hno : noFourCompleted g xs = true)
    (hcount : occupiedCells g.board + xs.length = HEIGHT * WIDTH) (hne : xs ≠ []) :
    (clicks g xs).gameOver = true ∧ (clicks g xs).alerts = [tieMessage] ∧
      (clicks g xs.dropLast).gameOver = false := by
  induction xs generalizing g with
  | nil => exact absurd rfl hne
  | cons x xs ih =>
    have hx := hxs x (List.mem_cons_self _ _)
    have hacc' : accepted g x = true ∧ allAccepted (handleClick g x).state xs = true := by
      simpa [allAccepted] using hacc
    have hno' : completesFour g x = false ∧ noFourCompleted (handleClick g x).state xs = true := by
      simpa [noFourCompleted] using hno
    obtain ⟨hgo, y, hy⟩ := (accepted_eq_true_iff g x).1 hacc'.1
    have hnowin : checkForWin (placePiece g y x) = false := by
      have := hno'.1
      unfold completesFour at this
      rw [hy] at this
      exact this
    have hocc := occupiedCells_accept hg hgo hy hx
    rw [List.length_cons] at hcount
    rcases handleClick_accept_outcome hgo hy hx with ⟨hw, -⟩ | ⟨-, -, h⟩ | ⟨-, hf, h⟩
    · rw [hnowin] at hw; exact Bool.noConfusion hw
    · cases xs with
      | nil =>
        rw [clicks_cons, h]
        refine ⟨rfl, ?_, hgo⟩
        show g.alerts ++ [tieMessage] = [tieMessage]
        rw [halerts]; rfl
      | cons x' xs' =>
        have h1 : accepted (handleClick g x).state x' = true := by
          have := hacc'.2
          simp only [allAccepted, Bool.and_eq_true] at this
          exact this.1
        have h2 := ((accepted_eq_true_iff _ _).1 h1).1
        rw [h] at h2
        exact Bool.noConfusion h2
    · cases xs with
      | nil =>
        have hfull : boardFull (handleClick g x).state.board = true :=
          boardFull_of_occupiedCells (hg.handleClick hx) (by rw [hocc]; simpa using hcount)
        rw [h] at hfull
        rw [hf] at hfull
        exact Bool.noConfusion hfull
      | cons x' xs' =>
        have hal : (handleClick g x).state.alerts = [] := by rw [h]; exact halerts
        have := ih (handleClick g x).state (hg.handleClick hx) hal
          (fun z hz => hxs z (List.mem_cons_of_mem _ hz)) hacc'.2 hno'.2
          (by rw [hocc]; omega) (by simp)
        exact this

theorem tie_iff_full_without_line {g : Game} {x : Int} {y : Nat} (hg : Grid g.board)
    (hx : validColumn x) (hgo : g.gameOver = false) (hy : findSpotForCol g x = some y) :
    ((handleClick g x).state.gameOver = true ∧
        (handleClick g x).state.alerts = g.alerts ++ [tieMessage]) ↔
      (¬ hasLine (placePiece g y x).board g.currPlayer ∧
        ∀ y' : Nat, y' < HEIGHT → ∀ x' : Nat, x' < WIDTH →
          occupied (placePiece g y x).board y' x') := by
  have hgrid : Grid (placePiece g y x).board := hg.setCell y hx.1 hx.2 (by simp)
  have hline : hasLine (placePiece g y x).board g.currPlayer ↔
      checkForWin (placePiece g y x) = true := hasLine_iff_checkForWin (placePiece g y x)
  rw [hline, ← boardFull_iff_occupied hgrid]
  rcases handleClick_accept_outcome hgo hy hx with ⟨hw, h⟩ | ⟨hw, hf, h⟩ | ⟨hw, hf, h⟩
  · rw [h, hw]
    constructor
    · rintro ⟨-, hal⟩
      have : winMessage g.currPlayer = tieMessage := by
        have := List.append_cancel_left hal
        exact List.head_eq_of_cons_eq this
      exact absurd this (winMessage_ne_tieMessage _)
    · rintro ⟨hnot, -⟩
      exact absurd rfl hnot
  · rw [h, hw, hf]
    constructor
    · intro _
      exact ⟨fun hc => Bool.noConfusion hc, rfl⟩
    · intro _
      exact ⟨rfl, rfl⟩
  · rw [h, hw, hf]
    constructor
    · rintro ⟨hov, -⟩
      have : g.gameOver = true := hov
      rw [hgo] at this
      exact Bool.noConfusion this
    · rintro ⟨-, hc⟩
      exact Bool.noConfusion hc

theorem tieDrops_allAccepted : allAccepted newGame tieDrops = true := by
  decide!

theorem tieDrops_noFourCompleted : noFourCompleted newGame tieDrops = true := by
  decide!

/-- C13: (1) after 42 clicks on grid columns from a new game, all accepted and none
completing four in a row for its mover, the game is over with the tie message as its only
alert, and it was not over before the 42nd click; (2) such a sequence exists; (3) an accepted
click on a grid column ends the game with the tie message exactly when, after the piece is
placed, the mover has no four in a row and every cell of the grid is occupied. -/
theorem tie_exactly_on_full_board_without_win :
    (∀ xs : List Int, xs.length = 42 → (∀ x ∈ xs, validColumn x) →
        allAccepted newGame xs = true → noFourCompleted newGame xs = true →
        (clicks newGame xs).gameOver = true ∧ (clicks newGame xs).alerts = [tieMessage] ∧
          (clicks newGame xs.dropLast).gameOver = false) ∧
      (∃ xs : List Int, xs.length = 42 ∧ (∀ x ∈ xs, validColumn x) ∧
        allAccepted newGame xs = true ∧ noFourCompleted newGame xs = true) ∧
      (∀ (g : Game) (x : Int) (y : Nat), Grid g.board → validColumn x → g.gameOver = false →
        findSpotForCol g x = some y →
        (((handleClick g x).state.gameOver = true ∧
            (handleClick g x).state.alerts = g.alerts ++ [tieMessage]) ↔
          (¬ hasLine (placePiece g y x).board g.currPlayer ∧
            ∀ y' : Nat, y' < HEIGHT → ∀ x' : Nat, x' < WIDTH →
              occupied (placePiece g y x).board y' x'))) := by
  refine ⟨?_, ⟨tieDrops, by decide, by decide, tieDrops_allAccepted, tieDrops_noFourCompleted⟩, ?_⟩
  · intro xs hlen hxs hacc hno
    have hne : xs ≠ [] := by
      intro h
      rw [h] at hlen
      exact absurd hlen (by decide)
    exact tie_after_filling xs newGame (by decide) rfl hxs hacc hno
      (by rw [hlen]; decide) hne
  · intro g x y hg hx hgo hy
    exact tie_iff_full_without_line hg hx hgo hy

/-- Witness of C13: the first part of the theorem at `tieDrops`. -/
theorem tie_exactly_on_full_board_without_win_witness :
    tieDrops.length = 42 ∧ (∀ x ∈ tieDrops, validColumn x) ∧
      allAccepted newGame tieDrops = true ∧ noFourCompleted newGame tieDrops = true ∧
      (clicks newGame tieDrops).gameOver = true ∧
      (clicks newGame tieDrops).alerts = [tieMessage] ∧
      (clicks newGame tieDrops.dropLast).gameOver = false :=
  ⟨by decide, by decide, tieDrops_allAccepted, tieDrops_noFourCompleted,
    tie_exactly_on_full_board_without_win.1 tieDrops (by decide) (by decide)
      tieDrops_allAccepted tieDrops_noFourCompleted⟩

/-! ## Piece counts and whose turn it is (C16) -/

theorem handleClick_accept_currPlayer {g : Game} {x : Int} {y : Nat} (hgo : g.gameOver = false)
    (hy : findSpotForCol g x = some y) (hx : validColumn x) :
    (handleClick g x).state.currPlayer =
      if (handleClick g x).state.gameOver then g.currPlayer else otherPlayer g.currPlayer := by
  obtain ⟨g', hret, -, -, hc⟩ := handleClick_accept_state hgo hy hx.1 hx.2
  rw [hret]; exact hc

/-- C16: in every state reached from a new game by clicks on columns `0 .. WIDTH-1`, the
number of pieces of player 1 equals the number of pieces of player 2 or exceeds it by one;
and while the game is not over, the current player is player 1 exactly when the two numbers
are equal. -/
theorem piece_count_parity (xs : List Int) (hxs : ∀ x ∈ xs, validColumn x) :
    (piecesOf Player.player1 (clicks newGame xs).board =
          piecesOf Player.player2 (clicks newGame xs).board ∨
        piecesOf Player.player1 (clicks newGame xs).board =
          piecesOf Player.player2 (clicks newGame xs).board + 1) ∧
      ((clicks newGame xs).gameOver = false →
        ((clicks newGame xs).currPlayer = Player.player1 ↔
          piecesOf Player.player1 (clicks newGame xs).board =
            piecesOf Player.player2 (clicks newGame xs).board)) := by
  have h := (clicks_induction
    (fun g =>
      (piecesOf Player.player1 g.board = piecesOf Player.player2 g.board ∨
        piecesOf Player.player1 g.board = piecesOf Player.player2 g.board + 1) ∧
      (g.gameOver = false →
        (g.currPlayer = Player.player1 ∧
            piecesOf Player.player1 g.board = piecesOf Player.player2 g.board) ∨
          (g.currPlayer = Player.player2 ∧
            piecesOf Player.player1 g.board = piecesOf Player.player2 g.board + 1)))
    (by decide) ?_ xs hxs).2
  · refine ⟨h.1, ?_⟩
    intro hgo
    rcases h.2 hgo with ⟨hc, hn⟩ | ⟨hc, hn⟩
    · exact ⟨fun _ => hn, fun _ => hc⟩
    · constructor
      · intro h1
        rw [hc] at h1
        exact Player.noConfusion h1
      · intro h1
        omega
  · intro g x y hx hg hP hgo hy
    have h1 := piecesOf_accept hg hgo hy hx Player.player1
    have h2 := piecesOf_accept hg hgo hy hx Player.player2
    have hc := handleClick_accept_currPlayer hgo hy hx
    rcases hP.2 hgo with ⟨hcur, hn⟩ | ⟨hcur, hn⟩
    · rw [hcur] at h1 h2 hc
      simp only [if_true] at h1
      rw [if_neg (by decide)] at h2
      refine ⟨Or.inr (by omega), ?_⟩
      intro hgo'
      right
      rw [hgo'] at hc
      exact ⟨by rw [hc]; rfl, by omega⟩
    · rw [hcur] at h1 h2 hc
      simp only [if_true] at h2
      rw [if_neg (by decide)] at h1
      refine ⟨Or.inl (by omega), ?_⟩
      intro hgo'
      left
      rw [hgo'] at hc
      exact ⟨by rw [hc]; rfl, by omega⟩

/-- Witness of C16: the theorem at the state after the drops 3, 3, 4. -/
theorem piece_count_parity_witness :
    (∀ x ∈ [3, 3, (4 : Int)], validColumn x) ∧
      (clicks newGame [3, 3, 4]).gameOver = false ∧
      piecesOf Player.player1 (clicks newGame [3, 3, 4]).board = 2 ∧
      piecesOf Player.player2 (clicks newGame [3, 3, 4]).board = 1 ∧
      ((clicks newGame [3, 3, 4]).currPlayer = Player.player1 ↔
        piecesOf Player.player1 (clicks newGame [3, 3, 4]).board =
          piecesOf Player.player2 (clicks newGame [3, 3, 4]).board) :=
  ⟨by decide, by decide!, by decide!, by decide!,
    (piece_count_parity [3, 3, 4] (by decide)).2 (by decide!)⟩

/-! ## No line of four before the game is won (C15) -/

theorem winMessage_injective {p q : Player} (h : winMessage p = winMessage q) : p = q := by
  cases p <;> cases q <;> first | rfl | exact absurd h (by decide)

theorem hasLine_placePiece_of_ne {g : Game} {x : Int} {y : Nat} (hy : y < g.board.length)
    {q : Player} (hq : q ≠ g.currPlayer) (h : hasLine (placePiece g y x).board q) :
    hasLine g.board q := by
  obtain ⟨y0, x0, d, hd, hl⟩ := h
  refine ⟨y0, x0, d, hd, ?_⟩
  intro k hk0 hk4
  obtain ⟨hyr, hxr, hc⟩ := hl k hk0 hk4
  refine ⟨hyr, hxr, ?_⟩
  rw [placePiece_cellAt g y x hy] at hc
  split at hc
  · exact absurd (Value.piece.inj hc).symm hq
  · exact hc

theorem otherPlayer_ne (p : Player) : otherPlayer p ≠ p := by
  cases p <;> decide

theorem eq_or_eq_otherPlayer (p q : Player) : q = p ∨ q = otherPlayer p := by
  cases p <;> cases q <;> decide

theorem lastMover_spec (xs : List Int) (hxs : ∀ x ∈ xs, validColumn x) (g : Game) :
    (lastMover g xs = none → clicks g xs = g) ∧
      (∀ p, lastMover g xs = some p → (clicks g xs).gameOver = true →
        (clicks g xs).currPlayer = p) := by
  induction xs generalizing g with
  | nil =>
    exact ⟨fun _ => rfl, fun p h => by simp [lastMover] at h⟩
  | cons x xs ih =>
    have hx := hxs x (List.mem_cons_self _ _)
    have ih' := ih (fun z hz => hxs z (List.mem_cons_of_mem _ hz)) (handleClick g x).state
    rw [clicks_cons]
    unfold lastMover
    cases hl : lastMover (handleClick g x).state xs with
    | some q =>
      dsimp only
      refine ⟨fun h => Option.noConfusion h, ?_⟩
      intro p hp hov
      rw [← Option.some.inj hp]
      exact ih'.2 q hl hov
    | none =>
      dsimp only
      rw [ih'.1 hl]
      cases ha : accepted g x with
      | false =>
        rw [handleClick_not_accepted ha]
        exact ⟨fun _ => rfl, fun p hp => by simp at hp⟩
      | true =>
        obtain ⟨hgo, y, hy⟩ := (accepted_eq_true_iff g x).1 ha
        refine ⟨fun h => by simp at h, ?_⟩
        intro p hp hov
        have hp' : g.currPlayer = p := by simpa using hp
        rw [handleClick_accept_currPlayer hgo hy hx, hov, ← hp']
        rfl

theorem line_invariant (xs : List Int) (hxs : ∀ x ∈ xs, validColumn x) :
    ((clicks newGame xs).gameOver = false →
        (clicks newGame xs).alerts = [] ∧ ∀ p, ¬ hasLine (clicks newGame xs).board p) ∧
      ((clicks newGame xs).gameOver = true →
        (clicks newGame xs).alerts = [tieMessage] ∨
          ((clicks newGame xs).alerts = [winMessage (clicks newGame xs).currPlayer] ∧
            hasLine (clicks newGame xs).board (clicks newGame xs).currPlayer ∧
            ¬ hasLine (clicks newGame xs).board
              (otherPlayer (clicks newGame xs).currPlayer))) := by
  refine (clicks_induction
    (fun g =>
      (g.gameOver = false → g.alerts = [] ∧ ∀ p, ¬ hasLine g.board p) ∧
      (g.gameOver = true →
        g.alerts = [tieMessage] ∨
          (g.alerts = [winMessage g.currPlayer] ∧ hasLine g.board g.currPlayer ∧
            ¬ hasLine g.board (otherPlayer g.currPlayer)))) ?_ ?_ xs hxs).2
  · refine ⟨fun _ => ⟨rfl, ?_⟩, fun h => Bool.noConfusion h⟩
    intro p hp
    have hw : checkForWin { newGame with currPlayer := p } = false := by
      cases p <;> decide
    have := (checkForWin_iff_line { newGame with currPlayer := p }).2 hp
    rw [hw] at this
    exact Bool.noConfusion this
  · intro g x y hx hg hP hgo hy
    obtain ⟨hal, hno⟩ := hP.1 hgo
    have hlen : y < g.board.length := by rw [hg.1]; exact findSpotForCol_lt hy
    have hother : ¬ hasLine (placePiece g y x).board (otherPlayer g.currPlayer) :=
      fun h => hno _ (hasLine_placePiece_of_ne hlen (otherPlayer_ne _) h)
    rcases handleClick_accept_outcome hgo hy hx with ⟨hw, h⟩ | ⟨-, -, h⟩ | ⟨hw, -, h⟩
    · rw [h]
      refine ⟨fun hc => Bool.noConfusion hc, fun _ => Or.inr ⟨?_, ?_, hother⟩⟩
      · show g.alerts ++ [winMessage g.currPlayer] = [winMessage g.currPlayer]
        rw [hal]; rfl
      · exact (checkForWin_iff_line (placePiece g y x)).1 hw
    · rw [h]
      refine ⟨fun hc => Bool.noConfusion hc, fun _ => Or.inl ?_⟩
      show g.alerts ++ [tieMessage] = [tieMessage]
      rw [hal]; rfl
    · rw [h]
      refine ⟨fun _ => ⟨hal, ?_⟩, fun hc => ?_⟩
      · intro p hp
        rcases eq_or_eq_otherPlayer g.currPlayer p with rfl | rfl
        · have := (checkForWin_iff_line (placePiece g y x)).2 hp
          rw [hw] at this
          exact Bool.noConfusion this
        · exact hother hp
      · have : g.gameOver = true := hc
        rw [hgo] at this
        exact Bool.noConfusion this

/-- C15: in every state reached from a new game by clicks on columns `0 .. WIDTH-1`: while
the game is not over, neither player has four in a row anywhere on the board; and when the
game is over with the win message of player `p`, then `p` is the player who moved last, `p`
has four in a row and the other player has none. -/
theorem no_line_before_win (xs : List Int) (hxs : ∀ x ∈ xs, validColumn x) :
    ((clicks newGame xs).gameOver = false → ∀ p, ¬ hasLine (clicks newGame xs).board p) ∧
      (∀ p, (clicks newGame xs).gameOver = true →
        (clicks newGame xs).alerts = [winMessage p] →
        lastMover newGame xs = some p ∧ hasLine (clicks newGame xs).board p ∧
          ¬ hasLine (clicks newGame xs).board (otherPlayer p)) := by
  have hinv := line_invariant xs hxs
  refine ⟨fun hgo => (hinv.1 hgo).2, ?_⟩
  intro p hov hal
  have hcur : (clicks newGame xs).currPlayer = p := by
    rcases hinv.2 hov with h | ⟨h, -, -⟩
    · rw [h] at hal
      exact absurd (List.head_eq_of_cons_eq hal).symm (winMessage_ne_tieMessage p)
    · rw [h] at hal
      exact winMessage_injective (List.head_eq_of_cons_eq hal)
  have hlines : hasLine (clicks newGame xs).board p ∧
      ¬ hasLine (clicks newGame xs).board (otherPlayer p) := by
    rcases hinv.2 hov with h | ⟨-, h1, h2⟩
    · rw [h] at hal
      exact absurd (List.head_eq_of_cons_eq hal).symm (winMessage_ne_tieMessage p)
    · rw [hcur] at h1 h2
      exact ⟨h1, h2⟩
  refine ⟨?_, hlines⟩
  have hspec := lastMover_spec xs hxs newGame
  cases hl : lastMover newGame xs with
  | none =>
    rw [hspec.1 hl] at hov
    exact absurd hov (by decide)
  | some q =>
    rw [← hspec.2 q hl hov, hcur]

/-- Witness of C15: the theorem at the vertical-win scenario, won by player 1. -/
theorem no_line_before_win_witness :
    (∀ x ∈ verticalWinDrops, validColumn x) ∧ (clicks newGame verticalWinDrops).gameOver = true ∧
      (clicks newGame verticalWinDrops).alerts = [winMessage Player.player1] ∧
      lastMover newGame verticalWinDrops = some Player.player1 ∧
      hasLine (clicks newGame verticalWinDrops).board Player.player1 ∧
      ¬ hasLine (clicks newGame verticalWinDrops).board (otherPlayer Player.player1) :=
  ⟨by decide, by decide!, by decide!,
    (no_line_before_win verticalWinDrops (by decide)).2 Player.player1 (by decide!)
      (by decide!)⟩

/-! ## The full scan and the minimal scan (C14) -/

theorem allHeld_four (g : Game) (a b c d : Int × Int) :
    allHeld g [a, b, c, d] = true ↔
      cellAt g.board a.1 a.2 = Value.piece g.currPlayer ∧
        cellAt g.board b.1 b.2 = Value.piece g.currPlayer ∧
        cellAt g.board c.1 c.2 = Value.piece g.currPlayer ∧
        cellAt g.board d.1 d.2 = Value.piece g.currPlayer := by
  simp only [allHeld, List.all_cons, List.all_nil, Bool.and_true, Bool.and_eq_true, beq_iff_eq]

theorem checkForWin_eq_minimal (g : Game) : checkForWin g = checkForWinMinimal g := by
  rw [Bool.eq_iff_iff]
  simp only [checkForWin, checkForWinMinimal, List.any_eq_true, List.mem_range, Bool.or_eq_true,
    Bool.and_eq_true, decide_eq_true_eq, win_four, allHeld_four, cellWins, HEIGHT, WIDTH]
  constructor
  · rintro ⟨yn, hy, xn, hx, h⟩
    refine ⟨yn, hy, xn, hx, ?_⟩
    rcases h with ((h | h) | h) | h
    · obtain ⟨⟨-, -, h1⟩, ⟨-, -, h2⟩, ⟨-, -, h3⟩, ⟨-, hb, h4⟩⟩ := h
      exact Or.inl (Or.inl (Or.inl ⟨by omega, h1, h2, h3, h4⟩))
    · obtain ⟨⟨-, -, h1⟩, ⟨-, -, h2⟩, ⟨-, -, h3⟩, ⟨hb, -, h4⟩⟩ := h
      exact Or.inl (Or.inl (Or.inr ⟨by omega, h1, h2, h3, h4⟩))
    · obtain ⟨⟨-, -, h1⟩, ⟨-, -, h2⟩, ⟨-, -, h3⟩, ⟨hb, hb', h4⟩⟩ := h
      exact Or.inl (Or.inr ⟨⟨by omega, by omega⟩, h1, h2, h3, h4⟩)
    · obtain ⟨⟨-, -, h1⟩, ⟨-, -, h2⟩, ⟨-, -, h3⟩, ⟨hb, hb', h4⟩⟩ := h
      exact Or.inr ⟨⟨by omega, by omega⟩, h1, h2, h3, h4⟩
  · rintro ⟨yn, hy, xn, hx, h⟩
    refine ⟨yn, hy, xn, hx, ?_⟩
    rcases h with ((h | h) | h) | h
    · obtain ⟨hb, h1, h2, h3, h4⟩ := h
      exact Or.inl (Or.inl (Or.inl ⟨⟨by omega, by omega, h1⟩, ⟨by omega, by omega, h2⟩,
        ⟨by omega, by omega, h3⟩, ⟨by omega, by omega, h4⟩⟩))
    · obtain ⟨hb, h1, h2, h3, h4⟩ := h
      exact Or.inl (Or.inl (Or.inr ⟨⟨by omega, by omega, h1⟩, ⟨by omega, by omega, h2⟩,
        ⟨by omega, by omega, h3⟩, ⟨by omega, by omega, h4⟩⟩))
    · obtain ⟨⟨hb, hb'⟩, h1, h2, h3, h4⟩ := h
      exact Or.inl (Or.inr ⟨⟨by omega, by omega, h1⟩, ⟨by omega, by omega, h2⟩,
        ⟨by omega, by omega, h3⟩, ⟨by omega, by omega, h4⟩⟩)
    · obtain ⟨⟨hb, hb'⟩, h1, h2, h3, h4⟩ := h
      exact Or.inr ⟨⟨by omega, by omega, h1⟩, ⟨by omega, by omega, h2⟩,
        ⟨by omega, by omega, h3⟩, ⟨by omega, by omega, h4⟩⟩

theorem mem_gridCells (y x : Int) :
    (y, x) ∈ gridCells ↔ (0 ≤ y ∧ y < HEIGHT) ∧ (0 ≤ x ∧ x < WIDTH) := by
  simp only [gridCells, List.mem_map, List.mem_range, Prod.mk.injEq, HEIGHT, WIDTH]
  constructor
  · rintro ⟨i, hi, rfl, rfl⟩
    omega
  · rintro ⟨⟨hy0, hy⟩, ⟨hx0, hx⟩⟩
    refine ⟨y.toNat * 7 + x.toNat, by omega, ?_, ?_⟩ <;> omega

theorem win_ray_iff (g : Game) (y x : Int) (d : Int × Int) :
    _win g (ray y x d) = true ↔ lineOf g.board g.currPlayer y x d := by
  rw [ray, win_four, lineOf_iff]
  simp only [cellWins, List.mem_cons, List.mem_singleton, List.not_mem_nil, or_false,
    forall_eq_or_imp, forall_eq, zero_mul, add_zero, one_mul]

theorem scanInOrder_iff (g : Game) (cells dirs : List (Int × Int))
    (hc : ∀ c, c ∈ cells ↔ c ∈ gridCells) (hd : ∀ d, d ∈ dirs ↔ d ∈ directions) :
    scanInOrder g cells dirs = true ↔ hasLine g.board g.currPlayer := by
  simp only [scanInOrder, List.any_eq_true, win_ray_iff]
  constructor
  · rintro ⟨c, -, d, hdm, hl⟩
    exact ⟨c.1, c.2, d, (hd d).1 hdm, hl⟩
  · rintro ⟨y, x, d, hdm, hl⟩
    have h0 := hl 0 (by decide) (by decide)
    simp only [zero_mul, add_zero] at h0
    exact ⟨(y, x), (hc _).2 ((mem_gridCells y x).2 ⟨h0.1, h0.2.1⟩), d, (hd d).2 hdm, hl⟩

/-- C14: for every board and current player, the full scan of `checkForWin` returns the same
boolean as the minimal scan `checkForWinMinimal`, and the same boolean as the scan taken
over any reordering of the grid cells and any reordering of the four rays. -/
theorem full_scan_eq_minimal_scan (g : Game) :
    checkForWin g = checkForWinMinimal g ∧
      scanInOrder g gridCells directions = checkForWin g ∧
      ∀ cells dirs : List (Int × Int), cells.Perm gridCells → dirs.Perm directions →
        scanInOrder g cells dirs = checkForWin g := by
  have hord : ∀ cells dirs : List (Int × Int), cells.Perm gridCells → dirs.Perm directions →
      scanInOrder g cells dirs = checkForWin g := by
    intro cells dirs hc hd
    rw [Bool.eq_iff_iff, scanInOrder_iff g cells dirs (fun c => hc.mem_iff) (fun d => hd.mem_iff)]
    exact hasLine_iff_checkForWin g
  exact ⟨checkForWin_eq_minimal g, hord _ _ (List.Perm.refl _) (List.Perm.refl _), hord⟩

/-- Witness of C14: the theorem at the state after `diagonalDrops`, with the cells and the
rays taken in reverse order. -/
theorem full_scan_eq_minimal_scan_witness :
    gridCells.reverse.Perm gridCells ∧ directions.reverse.Perm directions ∧
      checkForWinMinimal (clicks newGame diagonalDrops) = true ∧
      checkForWin (clicks newGame diagonalDrops) =
        checkForWinMinimal (clicks newGame diagonalDrops) ∧
      scanInOrder (clicks newGame diagonalDrops) gridCells.reverse directions.reverse =
        checkForWin (clicks newGame diagonalDrops) :=
  ⟨List.reverse_perm _, List.reverse_perm _, by decide!,
    (full_scan_eq_minimal_scan (clicks newGame diagonalDrops)).1,
    (full_scan_eq_minimal_scan (clicks newGame diagonalDrops)).2.2 _ _ (List.reverse_perm _)
      (List.reverse_perm _)⟩

/-! ## Reads stay inside the grid (C18) -/

theorem _winReads_inGrid (g : Game) (cells : List (Int × Int)) :
    ∀ c ∈ _winReads g cells, inGrid c := by
  induction cells with
  | nil => intro c hc; simp [_winReads] at hc
  | cons a cs ih =>
    intro c hc
    unfold _winReads at hc
    split at hc
    · rename_i hb
      have ha : inGrid a := by
        simp only [Bool.and_eq_true, decide_eq_true_eq] at hb
        exact ⟨⟨hb.1.1.1, hb.1.1.2⟩, ⟨hb.1.2, hb.2⟩⟩
      split at hc
      · rcases List.mem_cons.1 hc with rfl | h
        · exact ha
        · exact ih c h
      · rw [List.mem_singleton.1 hc]; exact ha
    · simp at hc

theorem tracedRays_spec (g : Game) (rs : List (List (Int × Int))) :
    (tracedRays g rs).1 = rs.any (_win g) ∧ ∀ c ∈ (tracedRays g rs).2, inGrid c := by
  induction rs with
  | nil => exact ⟨rfl, fun c hc => by simp [tracedRays] at hc⟩
  | cons r rs ih =>
    unfold tracedRays
    cases hw : _win g r with
    | true =>
      simp only [if_true, List.any_cons, hw, Bool.true_or, true_and]
      exact _winReads_inGrid g r
    | false =>
      simp only [Bool.false_eq_true, if_false, List.any_cons, hw, Bool.false_or]
      refine ⟨ih.1, ?_⟩
      intro c hc
      rcases List.mem_append.1 hc with h | h
      · exact _winReads_inGrid g r c h
      · exact ih.2 c h

theorem tracedCells_spec (g : Game) (cells : List (Int × Int)) :
    (tracedCells g cells).1 = scanInOrder g cells directions ∧
      ∀ c ∈ (tracedCells g cells).2, inGrid c := by
  induction cells with
  | nil => exact ⟨rfl, fun c hc => by simp [tracedCells] at hc⟩
  | cons a cs ih =>
    have hr := tracedRays_spec g (directions.map (ray a.1 a.2))
    have hany : (directions.map (ray a.1 a.2)).any (_win g) =
        directions.any fun d => _win g (ray a.1 a.2 d) := by
      rfl
    unfold tracedCells
    cases ht : (tracedRays g (directions.map (ray a.1 a.2))).1 with
    | true =>
      simp only [if_true]
      refine ⟨?_, hr.2⟩
      rw [ht, hany] at hr
      simp only [scanInOrder, List.any_cons, ← hr.1, Bool.true_or]
    | false =>
      simp only [Bool.false_eq_true, if_false]
      constructor
      · rw [ht, hany] at hr
        rw [ih.1]
        simp only [scanInOrder, List.any_cons, ← hr.1, Bool.false_or]
      · intro c hc
        rcases List.mem_append.1 hc with h | h
        · exact hr.2 c h
        · exact ih.2 c h

theorem lookup?_of_inGrid {b : Board} (hg : Grid b) {c : Int × Int} (hc : inGrid c) :
    lookup? b c.1 c.2 = some (cellAt b c.1 c.2) := by
  obtain ⟨⟨hy0, hy⟩, ⟨hx0, hx⟩⟩ := hc
  obtain ⟨r, hr, hlen, -⟩ := hg.row (y := c.1.toNat) (by omega)
  have hxl : c.2.toNat < r.elems.length := by omega
  unfold lookup? cellAt Row.get
  rw [if_pos ⟨hy0, hx0⟩, if_pos hy0, hr]
  dsimp only
  rw [if_pos hx0, List.getElem?_eq_getElem hxl]
  rfl

theorem findSpotReads_spec (b : Board) (x : Int) (n : Nat) :
    ∀ c ∈ findSpotReads b x n, (0 ≤ c.1 ∧ c.1 < (n : Int)) ∧ c.2 = x := by
  induction n with
  | zero => intro c hc; simp [findSpotReads] at hc
  | succ n ih =>
    intro c hc
    unfold findSpotReads at hc
    rcases List.mem_cons.1 hc with rfl | h
    · exact ⟨⟨Int.ofNat_nonneg n, by push_cast; omega⟩, rfl⟩
    · split at h
      · simp at h
      · have := ih c h
        exact ⟨⟨this.1.1, by push_cast; omega⟩, this.2⟩

/-- C18: on a `HEIGHT` by `WIDTH` board, the traced `checkForWin` returns the boolean of
`checkForWin`, and every coordinate pair at which it indexes the board lies in the grid, where
the total lookup is `some` value, the one read; likewise `findSpotForCol` with a grid column
`x` indexes only rows `0 .. HEIGHT-1` of column `x`, where the total lookup is `some` value. -/
theorem reads_stay_in_grid (g : Game) (hg : Grid g.board) :
    (checkForWinTraced g).1 = checkForWin g ∧
      (∀ c ∈ (checkForWinTraced g).2,
        inGrid c ∧ lookup? g.board c.1 c.2 = some (cellAt g.board c.1 c.2)) ∧
      (∀ x : Int, validColumn x → ∀ c ∈ findSpotReads g.board x HEIGHT,
        ((0 ≤ c.1 ∧ c.1 < (HEIGHT : Int)) ∧ c.2 = x) ∧
          lookup? g.board c.1 c.2 = some (cellAt g.board c.1 c.2)) := by
  have hspec := tracedCells_spec g gridCells
  refine ⟨?_, ?_, ?_⟩
  · unfold checkForWinTraced
    rw [hspec.1, Bool.eq_iff_iff, scanInOrder_iff g _ _ (fun _ => Iff.rfl) (fun _ => Iff.rfl)]
    exact hasLine_iff_checkForWin g
  · intro c hc
    have hin := hspec.2 c hc
    exact ⟨hin, lookup?_of_inGrid hg hin⟩
  · intro x hx c hc
    have h := findSpotReads_spec g.board x HEIGHT c hc
    refine ⟨h, lookup?_of_inGrid hg ⟨h.1, ?_⟩⟩
    rw [h.2]
    exact hx

/-- Witness of C18: the theorem at a new game, where each of the four rays from each of the
42 cells reads its start cell only, and `findSpotForCol 3` reads the bottom cell only. -/
theorem reads_stay_in_grid_witness :
    Grid newGame.board ∧ (checkForWinTraced newGame).2.length = 168 ∧
      findSpotReads newGame.board 3 HEIGHT = [(5, 3)] ∧
      (checkForWinTraced newGame).1 = checkForWin newGame ∧
      (∀ c ∈ (checkForWinTraced newGame).2,
        inGrid c ∧ lookup? newGame.board c.1 c.2 = some (cellAt newGame.board c.1 c.2)) :=
  ⟨by decide, by decide!, by decide!, (reads_stay_in_grid newGame (by decide)).1,
    (reads_stay_in_grid newGame (by decide)).2.1⟩

end Connect4
